import Mathlib

/-!
Shallow embedding of the `ringslice` repository (Go): a fixed-capacity
circular buffer (`Writer`) with independent readers (`Reader`).

Modelling conventions:
* Go `int64` fields (`size`, `wPos`, `cycle`, `rPos`) are `Int`.  The Go
  operators `/` and `%` on `int64` truncate toward zero, so they are embedded
  as `Int.tdiv` / `Int.tmod`.
* The element slice `data []T` is a `List α`; Go slice expressions carry
  their bounds checks: an out-of-range slice or index is a runtime panic in
  Go and is embedded as the `none` / `.panic` outcome.
* `copy(dst, src)` copies `min (length dst) (length src)` elements to the
  front of `dst`.
* A blocking read whose wait-loop condition holds with the buffer still open
  would suspend on the condition variable; in this sequential embedding that
  outcome is the distinguished result `.blocks`.
* `Read` calls itself at most once per invocation, and the inner invocation
  runs with `cycle = w.cycle`, which cannot re-enter the self-calling branch.
  Its body is therefore embedded as `readBody` with the self-call abstracted,
  and `read` instantiates it two levels deep; `read_ne_fuelOut` proves the
  depth bound is never reached, so this equals the unbounded Go recursion.
-/

namespace Ringslice

/-- Errors surfaced by the Go code: `io.ErrClosedPipe`, `io.EOF`,
`ErrStaleReader`, and the defensive "reader is in the future" error. -/
inductive GoErr : Type where
  | closedPipe
  | eof
  | staleReader
  | readerInFuture
deriving DecidableEq, Repr

/-- The Go struct `Writer[T]` (buf.go): element storage, size, write position,
cycle (lap) counter and closed flag.  The sync primitives (mutex, cond, wg)
have no sequential content and are not part of the state. -/
structure Writer (α : Type) where
  data : List α
  size : Int
  wPos : Int
  cycle : Int
  closed : Bool
deriving DecidableEq, Repr

/-- The Go struct `Reader[T]` (reader.go) minus the writer back-pointer,
which is passed explicitly to each operation.  `closed` models the
`*uint64` pointed-to counter. -/
structure Reader : Type where
  rPos : Int
  cycle : Int
  block : Bool
  autoSkip : Bool
  closed : Nat
deriving DecidableEq, Repr

/-- Go `copy(dst, src)`: the new contents of `dst`. -/
def goCopy {α : Type} (dst src : List α) : List α :=
  src.take dst.length ++ dst.drop (min dst.length src.length)

/-- `copy(data[pos:], src)` seen as an update of the whole backing array
(the bounds check for `data[pos:]` itself is done at each use site). -/
def copyAt {α : Type} (data : List α) (pos : Nat) (src : List α) : List α :=
  data.take pos ++ goCopy (data.drop pos) src

/-- Go slice expression `s[i:j]`; `none` is the bounds-check panic. -/
def goSlice {α : Type} (s : List α) (i j : Int) : Option (List α) :=
  if 0 ≤ i ∧ i ≤ j ∧ j ≤ (s.length : Int) then
    some ((s.take j.toNat).drop i.toNat)
  else none

/-- Go slice expression `s[i:]`; `none` is the bounds-check panic. -/
def goSliceFrom {α : Type} (s : List α) (i : Int) : Option (List α) :=
  if 0 ≤ i ∧ i ≤ (s.length : Int) then some (s.drop i.toNat) else none

/-- `New[T](size)` (buf.go): `make([]T, size)` fills the slice with the zero
value of `T`, passed here explicitly as `zero`. -/
def new {α : Type} (size : Int) (zero : α) : Option (Writer α) :=
  if size ≤ 0 then none
  else some { data := List.replicate size.toNat zero, size := size,
              wPos := 0, cycle := 0, closed := false }

/-- `Writer.Write` (buf.go).  Result: `none` for an out-of-bounds slice
access (Go runtime panic), otherwise the new writer state, the returned
count and the returned error. -/
def write {α : Type} (w : Writer α) (values0 : List α) :
    Option (Writer α × Int × Option GoErr) :=
  let n : Int := (values0.length : Int)
  if w.closed = true then some (w, 0, some .closedPipe) else
  -- oversized branch: n > w.size
  let cycle1 := if n > w.size then w.cycle + Int.tdiv n w.size - 1 else w.cycle
  let wPos1 := if n > w.size then w.wPos + Int.tmod n w.size else w.wPos
  let values := if n > w.size then values0.drop (n - w.size).toNat else values0
  -- copy(w.data[wPos1:], values)
  if 0 ≤ wPos1 ∧ wPos1 ≤ (w.data.length : Int) then
    let data1 := copyAt w.data wPos1.toNat values
    let remain := w.size - wPos1
    if (values.length : Int) > remain then
      -- copy(w.data, values[remain:])
      if 0 ≤ remain ∧ remain ≤ (values.length : Int) then
        some ({ w with data := copyAt data1 0 (values.drop remain.toNat),
                       cycle := cycle1 + 1,
                       wPos := (wPos1 + (values.length : Int)) % w.size },
              n, none)
      else none
    else if (values.length : Int) = remain then
      some ({ w with data := data1, cycle := cycle1 + 1,
                     wPos := (wPos1 + (values.length : Int)) % w.size },
            n, none)
    else
      some ({ w with data := data1, cycle := cycle1,
                     wPos := (wPos1 + (values.length : Int)) % w.size },
            n, none)
  else none

/-- `Writer.Reader()` (buf.go): default factory, positioned one lap behind
(or at 0 while on the first lap); `none` when the buffer is closed. -/
def mkReader {α : Type} (w : Writer α) : Option Reader :=
  if w.closed = true then none
  else some { rPos := if w.cycle > 0 then w.wPos else 0,
              cycle := if w.cycle > 0 then w.cycle - 1 else w.cycle,
              block := false, autoSkip := false, closed := 0 }

/-- `Writer.BlockingReader()` (buf.go). -/
def mkBlockingReader {α : Type} (w : Writer α) : Option Reader :=
  if w.closed = true then none
  else some { rPos := if w.cycle > 0 then w.wPos else 0,
              cycle := if w.cycle > 0 then w.cycle - 1 else w.cycle,
              block := true, autoSkip := false, closed := 0 }

/-- `Writer.BlockingCurrentReader()` (buf.go). -/
def mkBlockingCurrentReader {α : Type} (w : Writer α) : Option Reader :=
  if w.closed = true then none
  else some { rPos := w.wPos, cycle := w.cycle,
              block := true, autoSkip := false, closed := 0 }

/-- `Writer.Close()` (buf.go); state change only (the wait on the reader
group is synchronization, not state). -/
def closeWriter {α : Type} (w : Writer α) : Writer α :=
  { w with closed := true }

/-- `Reader.Close()` (reader.go): `atomic.AddUint64(r.closed, 1)`. -/
def closeReader (r : Reader) : Reader :=
  { r with closed := r.closed + 1 }

/-- `Reader.Reset()` (reader.go). -/
def reset {α : Type} (w : Writer α) (r : Reader) : Reader :=
  { r with cycle := w.cycle, rPos := w.wPos }

/-- `Reader.SetAutoSkip(enabled)` (reader.go). -/
def setAutoSkip (r : Reader) (enabled : Bool) : Reader :=
  { r with autoSkip := enabled }

/-- Outcome of `Reader.Read`: runtime panic, suspension on the condition
variable, recursion-depth-bound exhaustion (never reached, see
`read_ne_fuelOut`), or a normal return carrying the final reader state, the
elements copied into the destination prefix, the returned count and the
returned error. -/
inductive ReadRes (α : Type) : Type where
  | panics
  | blocks
  | fuelOut
  | ok (r : Reader) (got : List α) (n : Int) (err : Option GoErr)
deriving DecidableEq, Repr

/-- Outcome of `Reader.ReadOne`: as `ReadRes`, with `res = some x` exactly
when an element is returned (Go returns the zero value alongside errors). -/
inductive ReadOneRes (α : Type) : Type where
  | panics
  | blocks
  | ok (r : Reader) (res : Option α) (err : Option GoErr)
deriving DecidableEq, Repr

/-- The body of `Reader.Read(p)` (reader.go), with `plen = len(p)` and the
recursive call `r.Read(p[avail:])` abstracted as `recur`.  The Go
assignments to the reader's fields (`r.block = false`, `r.rPos = ...`,
`r.cycle = ...`) are threaded as rebindings of the individual fields;
`block1 / cycle2 / rPos2 / rPos3` are the fields' values at the
corresponding points of the Go function. -/
def readBody {α : Type} (w : Writer α) (recur : Reader → Nat → ReadRes α)
    (r0 : Reader) (plen : Nat) : ReadRes α :=
  if r0.closed > 0 then .ok r0 [] 0 (some .closedPipe) else
  let n : Int := (plen : Int)
  -- blocking wait loop: waiting with the buffer open suspends
  if r0.block = true ∧ r0.cycle = w.cycle ∧ r0.rPos ≥ w.wPos ∧
      w.closed = false then .blocks else
  let block1 := if r0.block = true ∧ r0.cycle = w.cycle ∧ r0.rPos ≥ w.wPos
    then false else r0.block
  if r0.cycle < w.cycle - 1 ∧ r0.autoSkip = false then
    .ok ⟨r0.rPos, r0.cycle, block1, r0.autoSkip, r0.closed⟩ [] 0
      (some .staleReader) else
  let cycle2 := if r0.cycle < w.cycle - 1 then w.cycle - 1 else r0.cycle
  let rPos2 := if r0.cycle < w.cycle - 1 then w.wPos else r0.rPos
  if cycle2 = w.cycle - 1 then
    (if w.wPos > rPos2 ∧ r0.autoSkip = false then
      .ok ⟨rPos2, cycle2, block1, r0.autoSkip, r0.closed⟩ [] 0
        (some .staleReader) else
    let rPos3 := if w.wPos > rPos2 then w.wPos else rPos2
    let avail := w.size - rPos3
    if avail ≥ n then
      match goSlice w.data rPos3 (rPos3 + n) with
      | none => .panics
      | some src =>
        if rPos3 + n ≥ w.size then
          .ok ⟨0, cycle2 + 1, block1, r0.autoSkip, r0.closed⟩ (src.take plen)
            n none
        else
          .ok ⟨rPos3 + n, cycle2, block1, r0.autoSkip, r0.closed⟩
            (src.take plen) n none
    else
      match goSliceFrom w.data rPos3 with
      | none => .panics
      | some src =>
        -- p[avail:]
        if 0 ≤ avail ∧ avail ≤ n then
          match recur ⟨0, cycle2 + 1, block1, r0.autoSkip, r0.closed⟩
              (n - avail).toNat with
          | .ok r5 got2 n2 err => .ok r5 (src.take plen ++ got2) (avail + n2) err
          | other => other
        else .panics)
  else
  if cycle2 ≠ w.cycle then
    .ok ⟨rPos2, cycle2, block1, r0.autoSkip, r0.closed⟩ [] 0
      (some .readerInFuture) else
  if rPos2 ≥ w.wPos then
    .ok ⟨rPos2, cycle2, block1, r0.autoSkip, r0.closed⟩ [] 0 (some .eof) else
  let avail := w.wPos - rPos2
  let n2 := if n > avail then avail else n
  match goSlice w.data rPos2 (rPos2 + n2) with
  | none => .panics
  | some src =>
    .ok ⟨rPos2 + n2, cycle2, block1, r0.autoSkip, r0.closed⟩ (src.take plen)
      n2 none

/-- `Reader.Read(p)`: the body instantiated two self-call levels deep, which
always suffices (`read_ne_fuelOut`). -/
def read {α : Type} (w : Writer α) (r : Reader) (plen : Nat) : ReadRes α :=
  readBody w (readBody w (fun _ _ => .fuelOut)) r plen

/-- `Reader.ReadOne()` (reader.go), with field assignments threaded as in
`readBody`. -/
def readOne {α : Type} (w : Writer α) (r0 : Reader) : ReadOneRes α :=
  if r0.closed > 0 then .ok r0 none (some .closedPipe) else
  if r0.block = true ∧ r0.cycle = w.cycle ∧ r0.rPos ≥ w.wPos ∧
      w.closed = false then .blocks else
  let block1 := if r0.block = true ∧ r0.cycle = w.cycle ∧ r0.rPos ≥ w.wPos
    then false else r0.block
  if r0.cycle < w.cycle - 1 ∧ r0.autoSkip = false then
    .ok ⟨r0.rPos, r0.cycle, block1, r0.autoSkip, r0.closed⟩ none
      (some .staleReader) else
  let cycle2 := if r0.cycle < w.cycle - 1 then w.cycle - 1 else r0.cycle
  let rPos2 := if r0.cycle < w.cycle - 1 then w.wPos else r0.rPos
  if cycle2 = w.cycle - 1 then
    (if w.wPos > rPos2 ∧ r0.autoSkip = false then
      .ok ⟨rPos2, cycle2, block1, r0.autoSkip, r0.closed⟩ none
        (some .staleReader) else
    let rPos3 := if w.wPos > rPos2 then w.wPos else rPos2
    let avail := w.size - rPos3
    if avail ≥ 1 then
      -- res := r.w.data[r.rPos]
      if 0 ≤ rPos3 then
        match w.data[rPos3.toNat]? with
        | none => .panics
        | some x =>
          if rPos3 + 1 ≥ w.size then
            .ok ⟨0, cycle2 + 1, block1, r0.autoSkip, r0.closed⟩ (some x) none
          else
            .ok ⟨rPos3 + 1, cycle2, block1, r0.autoSkip, r0.closed⟩ (some x)
              none
      else .panics
    else
      -- r.rPos = 1; r.cycle += 1; return r.w.data[0], nil
      match w.data[0]? with
      | none => .panics
      | some x =>
        .ok ⟨1, cycle2 + 1, block1, r0.autoSkip, r0.closed⟩ (some x) none)
  else
  if cycle2 ≠ w.cycle then
    .ok ⟨rPos2, cycle2, block1, r0.autoSkip, r0.closed⟩ none
      (some .readerInFuture) else
  if rPos2 ≥ w.wPos then
    .ok ⟨rPos2, cycle2, block1, r0.autoSkip, r0.closed⟩ none (some .eof) else
  if 0 ≤ rPos2 then
    match w.data[rPos2.toNat]? with
    | none => .panics
    | some x =>
      .ok ⟨rPos2 + 1, cycle2, block1, r0.autoSkip, r0.closed⟩ (some x) none
  else .panics


lemma read_unfold {α : Type} (w : Writer α) (r : Reader) (plen : Nat) :
    read w r plen = readBody w (readBody w (fun _ _ => .fuelOut)) r plen := rfl

lemma readBody_closed {α : Type} (w : Writer α) (recur : Reader → Nat → ReadRes α)
    (r : Reader) (plen : Nat) (hcl : r.closed > 0) :
    readBody w recur r plen = .ok r [] 0 (some .closedPipe) := by
  simp only [readBody, if_pos hcl]

lemma readBody_blocks {α : Type} (w : Writer α) (recur : Reader → Nat → ReadRes α)
    (r : Reader) (plen : Nat) (hcl : r.closed = 0) (hb : r.block = true)
    (hc : r.cycle = w.cycle) (hp : r.rPos ≥ w.wPos) (hw : w.closed = false) :
    readBody w recur r plen = .blocks := by
  have hA : ¬ r.closed > 0 := by omega
  have hB : r.block = true ∧ r.cycle = w.cycle ∧ r.rPos ≥ w.wPos ∧
      w.closed = false := ⟨hb, hc, hp, hw⟩
  simp only [readBody, if_neg hA, if_pos hB]

lemma readBody_stale {α : Type} (w : Writer α) (recur : Reader → Nat → ReadRes α)
    (r : Reader) (plen : Nat)
    (hcl : r.closed = 0) (hsk : r.autoSkip = false)
    (hst : r.cycle < w.cycle - 1 ∨ (r.cycle = w.cycle - 1 ∧ r.rPos < w.wPos)) :
    readBody w recur r plen = .ok r [] 0 (some .staleReader) := by
  have hA : ¬ r.closed > 0 := by omega
  have hB : ¬ (r.block = true ∧ r.cycle = w.cycle ∧ r.rPos ≥ w.wPos ∧
      w.closed = false) := by rintro ⟨-, h, -, -⟩; omega
  have hD : ¬ (r.block = true ∧ r.cycle = w.cycle ∧ r.rPos ≥ w.wPos) := by
    rintro ⟨-, h, -⟩; omega
  rcases hst with hst | ⟨hst1, hst2⟩
  · have hS1 : r.cycle < w.cycle - 1 ∧ r.autoSkip = false := ⟨hst, hsk⟩
    simp only [readBody, if_neg hA, if_neg hB, if_neg hD, if_pos hS1]
  · have hS1 : ¬ (r.cycle < w.cycle - 1 ∧ r.autoSkip = false) := by
      rintro ⟨h, -⟩; omega
    have hJ : ¬ (r.cycle < w.cycle - 1) := by omega
    have hS2 : w.wPos > r.rPos ∧ r.autoSkip = false := ⟨by omega, hsk⟩
    simp only [readBody, if_neg hA, if_neg hB, if_neg hD, if_neg hS1, if_neg hJ,
      if_pos hst1, if_pos hS2]

/-- Far-stale auto-skip: the call proceeds as on the reader jumped to
`(w.cycle - 1, w.wPos)`. -/
lemma readBody_skip_far {α : Type} (w : Writer α) (recur : Reader → Nat → ReadRes α)
    (r : Reader) (plen : Nat)
    (hcl : r.closed = 0) (hsk : r.autoSkip = true) (hst : r.cycle < w.cycle - 1) :
    readBody w recur r plen =
      readBody w recur ⟨w.wPos, w.cycle - 1, r.block, r.autoSkip, r.closed⟩ plen := by
  have hA : ¬ r.closed > 0 := by omega
  have hB : ¬ (r.block = true ∧ r.cycle = w.cycle ∧ r.rPos ≥ w.wPos ∧
      w.closed = false) := by rintro ⟨-, h, -, -⟩; omega
  have hD : ¬ (r.block = true ∧ r.cycle = w.cycle ∧ r.rPos ≥ w.wPos) := by
    rintro ⟨-, h, -⟩; omega
  have hS1 : ¬ (r.cycle < w.cycle - 1 ∧ r.autoSkip = false) := by
    rintro ⟨-, h⟩; rw [hsk] at h; cases h
  have hB' : ¬ (r.block = true ∧ w.cycle - 1 = w.cycle ∧ w.wPos ≥ w.wPos ∧
      w.closed = false) := by rintro ⟨-, h, -, -⟩; omega
  have hD' : ¬ (r.block = true ∧ w.cycle - 1 = w.cycle ∧ w.wPos ≥ w.wPos) := by
    rintro ⟨-, h, -⟩; omega
  have hS1' : ¬ (w.cycle - 1 < w.cycle - 1 ∧ r.autoSkip = false) := by
    rintro ⟨h, -⟩; omega
  have hJ' : ¬ (w.cycle - 1 < w.cycle - 1) := by omega
  simp only [readBody, if_neg hA, if_neg hB, if_neg hD, if_neg hS1, if_pos hst,
    if_neg hB', if_neg hD', if_neg hS1', if_neg hJ']

/-- Near-stale auto-skip: the call proceeds as on the reader moved to
`w.wPos` within the same lap. -/
lemma readBody_skip_near {α : Type} (w : Writer α) (recur : Reader → Nat → ReadRes α)
    (r : Reader) (plen : Nat)
    (hcl : r.closed = 0) (hsk : r.autoSkip = true)
    (hcy : r.cycle = w.cycle - 1) (hgt : w.wPos > r.rPos) :
    readBody w recur r plen =
      readBody w recur ⟨w.wPos, r.cycle, r.block, r.autoSkip, r.closed⟩ plen := by
  have hA : ¬ r.closed > 0 := by omega
  have hB : ¬ (r.block = true ∧ r.cycle = w.cycle ∧ r.rPos ≥ w.wPos ∧
      w.closed = false) := by rintro ⟨-, h, -, -⟩; omega
  have hD : ¬ (r.block = true ∧ r.cycle = w.cycle ∧ r.rPos ≥ w.wPos) := by
    rintro ⟨-, h, -⟩; omega
  have hS1 : ¬ (r.cycle < w.cycle - 1 ∧ r.autoSkip = false) := by
    rintro ⟨h, -⟩; omega
  have hJ : ¬ (r.cycle < w.cycle - 1) := by omega
  have hS2 : ¬ (w.wPos > r.rPos ∧ r.autoSkip = false) := by
    rintro ⟨-, h⟩; rw [hsk] at h; cases h
  have hB' : ¬ (r.block = true ∧ r.cycle = w.cycle ∧ w.wPos ≥ w.wPos ∧
      w.closed = false) := by rintro ⟨-, h, -, -⟩; omega
  have hD' : ¬ (r.block = true ∧ r.cycle = w.cycle ∧ w.wPos ≥ w.wPos) := by
    rintro ⟨-, h, -⟩; omega
  have hS1' : ¬ (r.cycle < w.cycle - 1 ∧ r.autoSkip = false) := hS1
  have hS2' : ¬ (w.wPos > w.wPos ∧ r.autoSkip = false) := by
    rintro ⟨h, -⟩; omega
  have hJ2' : ¬ (w.wPos > w.wPos) := by omega
  simp only [readBody, if_neg hA, if_neg hB, if_neg hD, if_neg hS1, if_neg hJ,
    if_pos hcy, if_neg hS2, if_pos hgt, if_neg hB', if_neg hD', if_neg hS2',
    if_neg hJ2']


/-- Wait-loop downgrade: with the buffer closed, a blocked caught-up reader
clears `block` and proceeds as the call on the downgraded reader. -/
lemma readBody_downgrade {α : Type} (w : Writer α) (recur : Reader → Nat → ReadRes α)
    (r : Reader) (plen : Nat)
    (hcl : r.closed = 0) (hb : r.block = true) (hc : r.cycle = w.cycle)
    (hp : r.rPos ≥ w.wPos) (hw : w.closed = true) :
    readBody w recur r plen =
      readBody w recur ⟨r.rPos, r.cycle, false, r.autoSkip, r.closed⟩ plen := by
  have hA : ¬ r.closed > 0 := by omega
  have hB : ¬ (r.block = true ∧ r.cycle = w.cycle ∧ r.rPos ≥ w.wPos ∧
      w.closed = false) := by rintro ⟨-, -, -, h⟩; rw [hw] at h; cases h
  have hD : r.block = true ∧ r.cycle = w.cycle ∧ r.rPos ≥ w.wPos := ⟨hb, hc, hp⟩
  have hB' : ¬ ((false : Bool) = true ∧ r.cycle = w.cycle ∧ r.rPos ≥ w.wPos ∧
      w.closed = false) := by rintro ⟨h, -⟩; cases h
  have hD' : ¬ ((false : Bool) = true ∧ r.cycle = w.cycle ∧ r.rPos ≥ w.wPos) := by
    rintro ⟨h, -⟩; cases h
  simp only [readBody, if_neg hA, if_neg hB, if_pos hD, if_neg hB', if_neg hD']

/-- One lap behind, destination fits in the tail. -/
lemma readBody_lap_fit {α : Type} (w : Writer α) (recur : Reader → Nat → ReadRes α)
    (r : Reader) (plen : Nat)
    (hcl : r.closed = 0) (hcy : r.cycle = w.cycle - 1)
    (hp : ¬ w.wPos > r.rPos) (hfit : w.size - r.rPos ≥ (plen : Int)) :
    readBody w recur r plen =
      match goSlice w.data r.rPos (r.rPos + (plen : Int)) with
      | none => .panics
      | some src =>
        if r.rPos + (plen : Int) ≥ w.size then
          .ok ⟨0, r.cycle + 1, r.block, r.autoSkip, r.closed⟩ (src.take plen)
            (plen : Int) none
        else
          .ok ⟨r.rPos + (plen : Int), r.cycle, r.block, r.autoSkip, r.closed⟩
            (src.take plen) (plen : Int) none := by
  have hA : ¬ r.closed > 0 := by omega
  have hB : ¬ (r.block = true ∧ r.cycle = w.cycle ∧ r.rPos ≥ w.wPos ∧
      w.closed = false) := by rintro ⟨-, h, -, -⟩; omega
  have hD : ¬ (r.block = true ∧ r.cycle = w.cycle ∧ r.rPos ≥ w.wPos) := by
    rintro ⟨-, h, -⟩; omega
  have hS1 : ¬ (r.cycle < w.cycle - 1 ∧ r.autoSkip = false) := by
    rintro ⟨h, -⟩; omega
  have hJ : ¬ (r.cycle < w.cycle - 1) := by omega
  have hS2 : ¬ (w.wPos > r.rPos ∧ r.autoSkip = false) := by
    rintro ⟨h, -⟩; omega
  simp only [readBody, if_neg hA, if_neg hB, if_neg hD, if_neg hS1, if_neg hJ,
    if_pos hcy, if_neg hS2, if_neg hp, if_pos hfit]

/-- One lap behind, destination larger than the tail: copy the tail, wrap,
and continue through the abstracted self-call. -/
lemma readBody_lap_wrap {α : Type} (w : Writer α) (recur : Reader → Nat → ReadRes α)
    (r : Reader) (plen : Nat)
    (hcl : r.closed = 0) (hcy : r.cycle = w.cycle - 1)
    (hp : ¬ w.wPos > r.rPos) (hlt : ¬ w.size - r.rPos ≥ (plen : Int)) :
    readBody w recur r plen =
      match goSliceFrom w.data r.rPos with
      | none => .panics
      | some src =>
        if 0 ≤ w.size - r.rPos ∧ w.size - r.rPos ≤ (plen : Int) then
          match recur ⟨0, r.cycle + 1, r.block, r.autoSkip, r.closed⟩
              ((plen : Int) - (w.size - r.rPos)).toNat with
          | .ok r5 got2 n2 err =>
            .ok r5 (src.take plen ++ got2) (w.size - r.rPos + n2) err
          | other => other
        else .panics := by
  have hA : ¬ r.closed > 0 := by omega
  have hB : ¬ (r.block = true ∧ r.cycle = w.cycle ∧ r.rPos ≥ w.wPos ∧
      w.closed = false) := by rintro ⟨-, h, -, -⟩; omega
  have hD : ¬ (r.block = true ∧ r.cycle = w.cycle ∧ r.rPos ≥ w.wPos) := by
    rintro ⟨-, h, -⟩; omega
  have hS1 : ¬ (r.cycle < w.cycle - 1 ∧ r.autoSkip = false) := by
    rintro ⟨h, -⟩; omega
  have hJ : ¬ (r.cycle < w.cycle - 1) := by omega
  have hS2 : ¬ (w.wPos > r.rPos ∧ r.autoSkip = false) := by
    rintro ⟨h, -⟩; omega
  simp only [readBody, if_neg hA, if_neg hB, if_neg hD, if_neg hS1, if_neg hJ,
    if_pos hcy, if_neg hS2, if_neg hp, if_neg hlt]

/-- Defensive branch: a reader strictly ahead of the writer. -/
lemma readBody_future {α : Type} (w : Writer α) (recur : Reader → Nat → ReadRes α)
    (r : Reader) (plen : Nat)
    (hcl : r.closed = 0) (hgt : r.cycle > w.cycle) :
    readBody w recur r plen = .ok r [] 0 (some .readerInFuture) := by
  have hA : ¬ r.closed > 0 := by omega
  have hB : ¬ (r.block = true ∧ r.cycle = w.cycle ∧ r.rPos ≥ w.wPos ∧
      w.closed = false) := by rintro ⟨-, h, -, -⟩; omega
  have hD : ¬ (r.block = true ∧ r.cycle = w.cycle ∧ r.rPos ≥ w.wPos) := by
    rintro ⟨-, h, -⟩; omega
  have hS1 : ¬ (r.cycle < w.cycle - 1 ∧ r.autoSkip = false) := by
    rintro ⟨h, -⟩; omega
  have hJ : ¬ (r.cycle < w.cycle - 1) := by omega
  have hE : ¬ (r.cycle = w.cycle - 1) := by omega
  have hFU : r.cycle ≠ w.cycle := by omega
  simp only [readBody, if_neg hA, if_neg hB, if_neg hD, if_neg hS1, if_neg hJ,
    if_neg hE, if_pos hFU]

/-- Caught up with nothing new: EndOfData (stated for non-blocking readers;
blocked readers go through `readBody_blocks` / `readBody_downgrade`). -/
lemma readBody_eof {α : Type} (w : Writer α) (recur : Reader → Nat → ReadRes α)
    (r : Reader) (plen : Nat)
    (hcl : r.closed = 0) (hbl : r.block = false)
    (hc : r.cycle = w.cycle) (hp : r.rPos ≥ w.wPos) :
    readBody w recur r plen = .ok r [] 0 (some .eof) := by
  have hA : ¬ r.closed > 0 := by omega
  have hB : ¬ (r.block = true ∧ r.cycle = w.cycle ∧ r.rPos ≥ w.wPos ∧
      w.closed = false) := by rintro ⟨h, -⟩; rw [hbl] at h; cases h
  have hD : ¬ (r.block = true ∧ r.cycle = w.cycle ∧ r.rPos ≥ w.wPos) := by
    rintro ⟨h, -⟩; rw [hbl] at h; cases h
  have hS1 : ¬ (r.cycle < w.cycle - 1 ∧ r.autoSkip = false) := by
    rintro ⟨h, -⟩; omega
  have hJ : ¬ (r.cycle < w.cycle - 1) := by omega
  have hE : ¬ (r.cycle = w.cycle - 1) := by omega
  have hFU : ¬ (r.cycle ≠ w.cycle) := by omega
  simp only [readBody, if_neg hA, if_neg hB, if_neg hD, if_neg hS1, if_neg hJ,
    if_neg hE, if_neg hFU, if_pos hp]

/-- Caught up with data available: copy `min plen avail` elements. -/
lemma readBody_caught {α : Type} (w : Writer α) (recur : Reader → Nat → ReadRes α)
    (r : Reader) (plen : Nat) (n2 : Int)
    (hcl : r.closed = 0) (hc : r.cycle = w.cycle) (hp : r.rPos < w.wPos)
    (hn2 : n2 = if (plen : Int) > w.wPos - r.rPos then w.wPos - r.rPos
      else (plen : Int)) :
    readBody w recur r plen =
      match goSlice w.data r.rPos (r.rPos + n2) with
      | none => .panics
      | some src =>
        .ok ⟨r.rPos + n2, r.cycle, r.block, r.autoSkip, r.closed⟩
          (src.take plen) n2 none := by
  have hA : ¬ r.closed > 0 := by omega
  have hB : ¬ (r.block = true ∧ r.cycle = w.cycle ∧ r.rPos ≥ w.wPos ∧
      w.closed = false) := by rintro ⟨-, -, h, -⟩; omega
  have hD : ¬ (r.block = true ∧ r.cycle = w.cycle ∧ r.rPos ≥ w.wPos) := by
    rintro ⟨-, -, h⟩; omega
  have hS1 : ¬ (r.cycle < w.cycle - 1 ∧ r.autoSkip = false) := by
    rintro ⟨h, -⟩; omega
  have hJ : ¬ (r.cycle < w.cycle - 1) := by omega
  have hE : ¬ (r.cycle = w.cycle - 1) := by omega
  have hFU : ¬ (r.cycle ≠ w.cycle) := by omega
  have hEO : ¬ (r.rPos ≥ w.wPos) := by omega
  rw [hn2]
  simp only [readBody, if_neg hA, if_neg hB, if_neg hD, if_neg hS1, if_neg hJ,
    if_neg hE, if_neg hFU, if_neg hEO]


lemma readOne_closed {α : Type} (w : Writer α) (r : Reader) (hcl : r.closed > 0) :
    readOne w r = (.ok r none (some .closedPipe) : ReadOneRes α) := by
  simp only [readOne, if_pos hcl]

lemma readOne_blocks {α : Type} (w : Writer α) (r : Reader)
    (hcl : r.closed = 0) (hb : r.block = true) (hc : r.cycle = w.cycle)
    (hp : r.rPos ≥ w.wPos) (hw : w.closed = false) :
    readOne w r = (.blocks : ReadOneRes α) := by
  have hA : ¬ r.closed > 0 := by omega
  have hB : r.block = true ∧ r.cycle = w.cycle ∧ r.rPos ≥ w.wPos ∧
      w.closed = false := ⟨hb, hc, hp, hw⟩
  simp only [readOne, if_neg hA, if_pos hB]

lemma readOne_stale {α : Type} (w : Writer α) (r : Reader)
    (hcl : r.closed = 0) (hsk : r.autoSkip = false)
    (hst : r.cycle < w.cycle - 1 ∨ (r.cycle = w.cycle - 1 ∧ r.rPos < w.wPos)) :
    readOne w r = (.ok r none (some .staleReader) : ReadOneRes α) := by
  have hA : ¬ r.closed > 0 := by omega
  have hB : ¬ (r.block = true ∧ r.cycle = w.cycle ∧ r.rPos ≥ w.wPos ∧
      w.closed = false) := by rintro ⟨-, h, -, -⟩; omega
  have hD : ¬ (r.block = true ∧ r.cycle = w.cycle ∧ r.rPos ≥ w.wPos) := by
    rintro ⟨-, h, -⟩; omega
  rcases hst with hst | ⟨hst1, hst2⟩
  · have hS1 : r.cycle < w.cycle - 1 ∧ r.autoSkip = false := ⟨hst, hsk⟩
    simp only [readOne, if_neg hA, if_neg hB, if_neg hD, if_pos hS1]
  · have hS1 : ¬ (r.cycle < w.cycle - 1 ∧ r.autoSkip = false) := by
      rintro ⟨h, -⟩; omega
    have hJ : ¬ (r.cycle < w.cycle - 1) := by omega
    have hS2 : w.wPos > r.rPos ∧ r.autoSkip = false := ⟨by omega, hsk⟩
    simp only [readOne, if_neg hA, if_neg hB, if_neg hD, if_neg hS1, if_neg hJ,
      if_pos hst1, if_pos hS2]

lemma readOne_skip_far {α : Type} (w : Writer α) (r : Reader)
    (hcl : r.closed = 0) (hsk : r.autoSkip = true) (hst : r.cycle < w.cycle - 1) :
    readOne w r =
      (readOne w ⟨w.wPos, w.cycle - 1, r.block, r.autoSkip, r.closed⟩ :
        ReadOneRes α) := by
  have hA : ¬ r.closed > 0 := by omega
  have hB : ¬ (r.block = true ∧ r.cycle = w.cycle ∧ r.rPos ≥ w.wPos ∧
      w.closed = false) := by rintro ⟨-, h, -, -⟩; omega
  have hD : ¬ (r.block = true ∧ r.cycle = w.cycle ∧ r.rPos ≥ w.wPos) := by
    rintro ⟨-, h, -⟩; omega
  have hS1 : ¬ (r.cycle < w.cycle - 1 ∧ r.autoSkip = false) := by
    rintro ⟨-, h⟩; rw [hsk] at h; cases h
  have hB' : ¬ (r.block = true ∧ w.cycle - 1 = w.cycle ∧ w.wPos ≥ w.wPos ∧
      w.closed = false) := by rintro ⟨-, h, -, -⟩; omega
  have hD' : ¬ (r.block = true ∧ w.cycle - 1 = w.cycle ∧ w.wPos ≥ w.wPos) := by
    rintro ⟨-, h, -⟩; omega
  have hS1' : ¬ (w.cycle - 1 < w.cycle - 1 ∧ r.autoSkip = false) := by
    rintro ⟨h, -⟩; omega
  have hJ' : ¬ (w.cycle - 1 < w.cycle - 1) := by omega
  simp only [readOne, if_neg hA, if_neg hB, if_neg hD, if_neg hS1, if_pos hst,
    if_neg hB', if_neg hD', if_neg hS1', if_neg hJ']

lemma readOne_skip_near {α : Type} (w : Writer α) (r : Reader)
    (hcl : r.closed = 0) (hsk : r.autoSkip = true)
    (hcy : r.cycle = w.cycle - 1) (hgt : w.wPos > r.rPos) :
    readOne w r =
      (readOne w ⟨w.wPos, r.cycle, r.block, r.autoSkip, r.closed⟩ :
        ReadOneRes α) := by
  have hA : ¬ r.closed > 0 := by omega
  have hB : ¬ (r.block = true ∧ r.cycle = w.cycle ∧ r.rPos ≥ w.wPos ∧
      w.closed = false) := by rintro ⟨-, h, -, -⟩; omega
  have hD : ¬ (r.block = true ∧ r.cycle = w.cycle ∧ r.rPos ≥ w.wPos) := by
    rintro ⟨-, h, -⟩; omega
  have hS1 : ¬ (r.cycle < w.cycle - 1 ∧ r.autoSkip = false) := by
    rintro ⟨h, -⟩; omega
  have hJ : ¬ (r.cycle < w.cycle - 1) := by omega
  have hS2 : ¬ (w.wPos > r.rPos ∧ r.autoSkip = false) := by
    rintro ⟨-, h⟩; rw [hsk] at h; cases h
  have hB' : ¬ (r.block = true ∧ r.cycle = w.cycle ∧ w.wPos ≥ w.wPos ∧
      w.closed = false) := by rintro ⟨-, h, -, -⟩; omega
  have hD' : ¬ (r.block = true ∧ r.cycle = w.cycle ∧ w.wPos ≥ w.wPos) := by
    rintro ⟨-, h, -⟩; omega
  have hS2' : ¬ (w.wPos > w.wPos ∧ r.autoSkip = false) := by
    rintro ⟨h, -⟩; omega
  have hJ2' : ¬ (w.wPos > w.wPos) := by omega
  simp only [readOne, if_neg hA, if_neg hB, if_neg hD, if_neg hS1, if_neg hJ,
    if_pos hcy, if_neg hS2, if_pos hgt, if_neg hB', if_neg hD', if_neg hS2',
    if_neg hJ2']

lemma readOne_downgrade {α : Type} (w : Writer α) (r : Reader)
    (hcl : r.closed = 0) (hb : r.block = true) (hc : r.cycle = w.cycle)
    (hp : r.rPos ≥ w.wPos) (hw : w.closed = true) :
    readOne w r =
      (readOne w ⟨r.rPos, r.cycle, false, r.autoSkip, r.closed⟩ :
        ReadOneRes α) := by
  have hA : ¬ r.closed > 0 := by omega
  have hB : ¬ (r.block = true ∧ r.cycle = w.cycle ∧ r.rPos ≥ w.wPos ∧
      w.closed = false) := by rintro ⟨-, -, -, h⟩; rw [hw] at h; cases h
  have hD : r.block = true ∧ r.cycle = w.cycle ∧ r.rPos ≥ w.wPos := ⟨hb, hc, hp⟩
  have hB' : ¬ ((false : Bool) = true ∧ r.cycle = w.cycle ∧ r.rPos ≥ w.wPos ∧
      w.closed = false) := by rintro ⟨h, -⟩; cases h
  have hD' : ¬ ((false : Bool) = true ∧ r.cycle = w.cycle ∧ r.rPos ≥ w.wPos) := by
    rintro ⟨h, -⟩; cases h
  simp only [readOne, if_neg hA, if_neg hB, if_pos hD, if_neg hB', if_neg hD']

/-- One lap behind with at least one element in the tail. -/
lemma readOne_lap_get {α : Type} (w : Writer α) (r : Reader)
    (hcl : r.closed = 0) (hcy : r.cycle = w.cycle - 1)
    (hp : ¬ w.wPos > r.rPos) (hfit : w.size - r.rPos ≥ 1) :
    readOne w r =
      (if 0 ≤ r.rPos then
        match w.data[r.rPos.toNat]? with
        | none => .panics
        | some x =>
          if r.rPos + 1 ≥ w.size then
            .ok ⟨0, r.cycle + 1, r.block, r.autoSkip, r.closed⟩ (some x) none
          else
            .ok ⟨r.rPos + 1, r.cycle, r.block, r.autoSkip, r.closed⟩ (some x)
              none
      else .panics : ReadOneRes α) := by
  have hA : ¬ r.closed > 0 := by omega
  have hB : ¬ (r.block = true ∧ r.cycle = w.cycle ∧ r.rPos ≥ w.wPos ∧
      w.closed = false) := by rintro ⟨-, h, -, -⟩; omega
  have hD : ¬ (r.block = true ∧ r.cycle = w.cycle ∧ r.rPos ≥ w.wPos) := by
    rintro ⟨-, h, -⟩; omega
  have hS1 : ¬ (r.cycle < w.cycle - 1 ∧ r.autoSkip = false) := by
    rintro ⟨h, -⟩; omega
  have hJ : ¬ (r.cycle < w.cycle - 1) := by omega
  have hS2 : ¬ (w.wPos > r.rPos ∧ r.autoSkip = false) := by
    rintro ⟨h, -⟩; omega
  simp only [readOne, if_neg hA, if_neg hB, if_neg hD, if_neg hS1, if_neg hJ,
    if_pos hcy, if_neg hS2, if_neg hp, if_pos hfit]

/-- One lap behind with an empty tail (unreachable from well-formed states):
jump to position 1 of the next lap and return element 0. -/
lemma readOne_lap_zero {α : Type} (w : Writer α) (r : Reader)
    (hcl : r.closed = 0) (hcy : r.cycle = w.cycle - 1)
    (hp : ¬ w.wPos > r.rPos) (hlt : ¬ w.size - r.rPos ≥ 1) :
    readOne w r =
      (match w.data[0]? with
      | none => .panics
      | some x =>
        .ok ⟨1, r.cycle + 1, r.block, r.autoSkip, r.closed⟩ (some x) none :
        ReadOneRes α) := by
  have hA : ¬ r.closed > 0 := by omega
  have hB : ¬ (r.block = true ∧ r.cycle = w.cycle ∧ r.rPos ≥ w.wPos ∧
      w.closed = false) := by rintro ⟨-, h, -, -⟩; omega
  have hD : ¬ (r.block = true ∧ r.cycle = w.cycle ∧ r.rPos ≥ w.wPos) := by
    rintro ⟨-, h, -⟩; omega
  have hS1 : ¬ (r.cycle < w.cycle - 1 ∧ r.autoSkip = false) := by
    rintro ⟨h, -⟩; omega
  have hJ : ¬ (r.cycle < w.cycle - 1) := by omega
  have hS2 : ¬ (w.wPos > r.rPos ∧ r.autoSkip = false) := by
    rintro ⟨h, -⟩; omega
  simp only [readOne, if_neg hA, if_neg hB, if_neg hD, if_neg hS1, if_neg hJ,
    if_pos hcy, if_neg hS2, if_neg hp, if_neg hlt]

lemma readOne_future {α : Type} (w : Writer α) (r : Reader)
    (hcl : r.closed = 0) (hgt : r.cycle > w.cycle) :
    readOne w r = (.ok r none (some .readerInFuture) : ReadOneRes α) := by
  have hA : ¬ r.closed > 0 := by omega
  have hB : ¬ (r.block = true ∧ r.cycle = w.cycle ∧ r.rPos ≥ w.wPos ∧
      w.closed = false) := by rintro ⟨-, h, -, -⟩; omega
  have hD : ¬ (r.block = true ∧ r.cycle = w.cycle ∧ r.rPos ≥ w.wPos) := by
    rintro ⟨-, h, -⟩; omega
  have hS1 : ¬ (r.cycle < w.cycle - 1 ∧ r.autoSkip = false) := by
    rintro ⟨h, -⟩; omega
  have hJ : ¬ (r.cycle < w.cycle - 1) := by omega
  have hE : ¬ (r.cycle = w.cycle - 1) := by omega
  have hFU : r.cycle ≠ w.cycle := by omega
  simp only [readOne, if_neg hA, if_neg hB, if_neg hD, if_neg hS1, if_neg hJ,
    if_neg hE, if_pos hFU]

lemma readOne_eof {α : Type} (w : Writer α) (r : Reader)
    (hcl : r.closed = 0) (hbl : r.block = false)
    (hc : r.cycle = w.cycle) (hp : r.rPos ≥ w.wPos) :
    readOne w r = (.ok r none (some .eof) : ReadOneRes α) := by
  have hA : ¬ r.closed > 0 := by omega
  have hB : ¬ (r.block = true ∧ r.cycle = w.cycle ∧ r.rPos ≥ w.wPos ∧
      w.closed = false) := by rintro ⟨h, -⟩; rw [hbl] at h; cases h
  have hD : ¬ (r.block = true ∧ r.cycle = w.cycle ∧ r.rPos ≥ w.wPos) := by
    rintro ⟨h, -⟩; rw [hbl] at h; cases h
  have hS1 : ¬ (r.cycle < w.cycle - 1 ∧ r.autoSkip = false) := by
    rintro ⟨h, -⟩; omega
  have hJ : ¬ (r.cycle < w.cycle - 1) := by omega
  have hE : ¬ (r.cycle = w.cycle - 1) := by omega
  have hFU : ¬ (r.cycle ≠ w.cycle) := by omega
  simp only [readOne, if_neg hA, if_neg hB, if_neg hD, if_neg hS1, if_neg hJ,
    if_neg hE, if_neg hFU, if_pos hp]

lemma readOne_caught {α : Type} (w : Writer α) (r : Reader)
    (hcl : r.closed = 0) (hc : r.cycle = w.cycle) (hp : r.rPos < w.wPos) :
    readOne w r =
      (if 0 ≤ r.rPos then
        match w.data[r.rPos.toNat]? with
        | none => .panics
        | some x =>
          .ok ⟨r.rPos + 1, r.cycle, r.block, r.autoSkip, r.closed⟩ (some x) none
      else .panics : ReadOneRes α) := by
  have hA : ¬ r.closed > 0 := by omega
  have hB : ¬ (r.block = true ∧ r.cycle = w.cycle ∧ r.rPos ≥ w.wPos ∧
      w.closed = false) := by rintro ⟨-, -, h, -⟩; omega
  have hD : ¬ (r.block = true ∧ r.cycle = w.cycle ∧ r.rPos ≥ w.wPos) := by
    rintro ⟨-, -, h⟩; omega
  have hS1 : ¬ (r.cycle < w.cycle - 1 ∧ r.autoSkip = false) := by
    rintro ⟨h, -⟩; omega
  have hJ : ¬ (r.cycle < w.cycle - 1) := by omega
  have hE : ¬ (r.cycle = w.cycle - 1) := by omega
  have hFU : ¬ (r.cycle ≠ w.cycle) := by omega
  have hEO : ¬ (r.rPos ≥ w.wPos) := by omega
  simp only [readOne, if_neg hA, if_neg hB, if_neg hD, if_neg hS1, if_neg hJ,
    if_neg hE, if_neg hFU, if_neg hEO]


/-- With `cycle = w.cycle` the self-calling branch is unreachable, whatever
`recur` is. -/
lemma readBody_cycle_eq_ne_fuelOut {α : Type} (w : Writer α)
    (recur : Reader → Nat → ReadRes α) (r : Reader) (plen : Nat)
    (hc : r.cycle = w.cycle) : readBody w recur r plen ≠ .fuelOut := by
  by_cases hA : r.closed > 0
  · rw [readBody_closed w recur r plen hA]; simp
  · have hcl : r.closed = 0 := by omega
    by_cases hp : r.rPos ≥ w.wPos
    · by_cases hb : r.block = true
      · by_cases hw : w.closed = true
        · rw [readBody_downgrade w recur r plen hcl hb hc hp hw,
            readBody_eof w recur ⟨r.rPos, r.cycle, false, r.autoSkip, r.closed⟩
              plen hcl rfl hc hp]
          simp
        · have hw' : w.closed = false := by revert hw; cases w.closed <;> simp
          rw [readBody_blocks w recur r plen hcl hb hc hp hw']; simp
      · have hb' : r.block = false := by revert hb; cases r.block <;> simp
        rw [readBody_eof w recur r plen hcl hb' hc hp]; simp
    · have hp' : r.rPos < w.wPos := by omega
      rw [readBody_caught w recur r plen _ hcl hc hp' rfl]
      rcases goSlice w.data r.rPos (r.rPos + _) with _ | src <;>
        · intro hcontra; cases hcontra

/-- One-lap-behind entry of the two-level body never exhausts the depth
bound: the inner self-call runs with `cycle = w.cycle`. -/
lemma readBody_lap_ne_fuelOut {α : Type} (w : Writer α) (r : Reader) (plen : Nat)
    (hcl : r.closed = 0) (hcy : r.cycle = w.cycle - 1) (hp : ¬ w.wPos > r.rPos) :
    readBody w (readBody w (fun _ _ => (.fuelOut : ReadRes α))) r plen ≠
      .fuelOut := by
  by_cases hfit : w.size - r.rPos ≥ (plen : Int)
  · rw [readBody_lap_fit w _ r plen hcl hcy hp hfit]
    rcases goSlice w.data r.rPos (r.rPos + (plen : Int)) with _ | src
    · intro hcontra; cases hcontra
    · by_cases hW : r.rPos + (plen : Int) ≥ w.size <;>
        simp only [if_pos, if_neg, hW, if_true, if_false] <;>
        · intro hcontra; cases hcontra
  · rw [readBody_lap_wrap w _ r plen hcl hcy hp hfit]
    rcases goSliceFrom w.data r.rPos with _ | src
    · intro hcontra; cases hcontra
    · by_cases hG : 0 ≤ w.size - r.rPos ∧ w.size - r.rPos ≤ (plen : Int)
      · simp only [if_pos hG]
        have hinner := readBody_cycle_eq_ne_fuelOut w
          (fun _ _ => (.fuelOut : ReadRes α))
          ⟨0, r.cycle + 1, r.block, r.autoSkip, r.closed⟩
          ((plen : Int) - (w.size - r.rPos)).toNat (by simp; omega)
        rcases hres : readBody w (fun _ _ => (.fuelOut : ReadRes α))
            ⟨0, r.cycle + 1, r.block, r.autoSkip, r.closed⟩
            ((plen : Int) - (w.size - r.rPos)).toNat with _ | _ | _ | ⟨r5, g2, n2, e⟩
        · intro hcontra; cases hcontra
        · intro hcontra; cases hcontra
        · exact absurd hres hinner
        · intro hcontra; cases hcontra
      · simp only [if_neg hG]
        intro hcontra; cases hcontra

/-- The two-level instantiation of the body is the Go recursion: the depth
bound is never reached. -/
theorem read_ne_fuelOut {α : Type} (w : Writer α) (r : Reader) (plen : Nat) :
    read w r plen ≠ .fuelOut := by
  rw [read_unfold]
  by_cases hA : r.closed > 0
  · rw [readBody_closed _ _ r plen hA]; simp
  · have hcl : r.closed = 0 := by omega
    rcases lt_trichotomy r.cycle (w.cycle - 1) with hcy | hcy | hcy
    · by_cases hsk : r.autoSkip = true
      · rw [readBody_skip_far _ _ r plen hcl hsk hcy]
        exact readBody_lap_ne_fuelOut w _ plen hcl (by simp) (by simp)
      · have hsk' : r.autoSkip = false := by revert hsk; cases r.autoSkip <;> simp
        rw [readBody_stale _ _ r plen hcl hsk' (Or.inl hcy)]; simp
    · by_cases hgt : w.wPos > r.rPos
      · by_cases hsk : r.autoSkip = true
        · rw [readBody_skip_near _ _ r plen hcl hsk hcy hgt]
          exact readBody_lap_ne_fuelOut w _ plen hcl hcy (by simp)
        · have hsk' : r.autoSkip = false := by
            revert hsk; cases r.autoSkip <;> simp
          rw [readBody_stale _ _ r plen hcl hsk' (Or.inr ⟨hcy, by omega⟩)]; simp
      · exact readBody_lap_ne_fuelOut w r plen hcl hcy hgt
    · rcases lt_or_eq_of_le (by omega : w.cycle ≤ r.cycle) with hgt | heq
      · rw [readBody_future _ _ r plen hcl hgt]; simp
      · exact readBody_cycle_eq_ne_fuelOut w _ r plen heq.symm


/-! Concrete states used by the test-scenario claims (capacity-10 buffer of
`Char`, zero value `'x'`).  Each is the value produced by the corresponding
factory / `write` / `read` chain, as the claim theorems verify. -/

/-- Fresh capacity-10 buffer: `New[byte](10)`. -/
def wFresh : Writer Char := ⟨List.replicate 10 'x', 10, 0, 0, false⟩

/-- After `Write("hello")` on `wFresh`. -/
def wHello : Writer Char := ⟨"helloxxxxx".toList, 10, 5, 0, false⟩

/-- After `Write("world")` on `wHello`: the copy ends exactly at the end of
storage. -/
def wTen : Writer Char := ⟨"helloworld".toList, 10, 0, 1, false⟩

/-- After `Write("world!!!")` on `wHello`: the copy wraps. -/
def wWrap : Writer Char := ⟨"!!!loworld".toList, 10, 3, 1, false⟩

/-- After `Write` of 7 elements on `wFresh`. -/
def wSeven : Writer Char := ⟨("aaaaaaa".toList ++ List.replicate 3 'x'), 10, 7, 0, false⟩

/-- After the oversized `Write` of 15 elements `"ABCDEFGHIJKLMNO"` on
`wHello`. -/
def wOver : Writer Char := ⟨"FGHIJKLMNO".toList, 10, 0, 1, false⟩

/-- The default reader at position 0 of lap 0. -/
def rZero : Reader := ⟨0, 0, false, false, 0⟩

/-- `rZero` after reading five elements. -/
def rFive : Reader := ⟨5, 0, false, false, 0⟩

/-- C1 (status: code_bug).  The oversized-write branch adds `n mod size` to
the write cursor without reducing it modulo the capacity: starting from the
reachable state `wSeven` (capacity 10, `wPos = 7`, obtained by a single
7-element `Write` on a fresh buffer, with the cursor invariant
`0 ≤ wPos < size` holding), `Write` of 15 elements computes the intermediate
cursor `7 + 15 mod 10 = 12` and evaluates `w.data[12:]` on a length-10
slice, an out-of-bounds access (runtime panic, embedded as `none`) — the
claimed bounds-safety and cursor invariant fail. -/
theorem claim1_oversized_write_out_of_bounds :
    write wFresh (List.replicate 7 'a') = some (wSeven, 7, none) ∧
    (0 ≤ wSeven.wPos ∧ wSeven.wPos < wSeven.size) ∧
    (15 : Int) > wSeven.size ∧
    write wSeven "ABCDEFGHIJKLMNO".toList = none := by
  refine ⟨by decide, by decide, by decide, by decide⟩

/-- C3 (status: code_bug).  A reader created before an oversized `Write`
(15 > capacity 10) is *not* always invalidated: with the writer at
`wPos = 5` and the reader at `(lap 0, pos 5)`, the oversized write leaves
the writer at `(lap 1, pos 0)`, the staleness test `wPos > rPos` fails
(`0 > 5` is false), and the reader's next `Read` returns five
stale-window elements with no error instead of `ErrStaleReader`. -/
theorem claim3_oversized_write_reader_not_invalidated :
    write wFresh "hello".toList = some (wHello, 5, none) ∧
    mkReader wHello = some rZero ∧
    read wHello rZero 5 = .ok rFive "hello".toList 5 none ∧
    ("ABCDEFGHIJKLMNO".toList.length : Int) > wHello.size ∧
    write wHello "ABCDEFGHIJKLMNO".toList = some (wOver, 15, none) ∧
    read wOver rFive 5 = .ok ⟨0, 1, false, false, 0⟩ "KLMNO".toList 5 none := by
  refine ⟨by decide, by decide, by decide, by decide, by decide, by decide⟩

/-- C6: capacity 10: write `"hello"`, read 5, write `"world!!!"` (8, wraps);
a single 6-slot `Read` copies the 5-element tail, wraps the cursor to 0,
increments the reader lap, recurses for the 6th element, and reports the
combined count 6 with elements `"world!"` and no error (final reader state
`(lap 1, pos 1)`). -/
theorem claim6_wrap_read_combines_segments :
    write wFresh "hello".toList = some (wHello, 5, none) ∧
    mkReader wHello = some rZero ∧
    read wHello rZero 5 = .ok rFive "hello".toList 5 none ∧
    write wHello "world!!!".toList = some (wWrap, 8, none) ∧
    read wWrap rFive 6 = .ok ⟨1, 1, false, false, 0⟩ "world!".toList 6 none := by
  refine ⟨by decide, by decide, by decide, by decide, by decide⟩

/-- C10: a single `Read` can return a positive count together with EndOfData:
capacity 10, write `"hello"`, read 5, write `"world"` (exact fit, writer at
`(lap 1, pos 0)`); a non-blocking reader one lap behind at pos 5 reading
into an 8-slot destination (8 > capacity - readCursor = 5) copies the
5-element tail and propagates the recursive continuation's `io.EOF`
alongside count 5. -/
theorem claim10_positive_count_with_eof :
    write wFresh "hello".toList = some (wHello, 5, none) ∧
    mkReader wHello = some rZero ∧
    read wHello rZero 5 = .ok rFive "hello".toList 5 none ∧
    write wHello "world".toList = some (wTen, 5, none) ∧
    (8 : Int) > wTen.size - rFive.rPos ∧ wTen.wPos = 0 ∧
    read wTen rFive 8 = .ok ⟨0, 1, false, false, 0⟩ "world".toList 5
      (some .eof) := by
  refine ⟨by decide, by decide, by decide, by decide, by decide, by decide,
    by decide⟩

/-- C2 (counterexample to the claimed boundary case): a reader exactly at
`readLap = lap - 1` with `readCursor = writeCursor` (the boundary the claim
places in the stale region) is *not* stale: the whole buffer is exactly the
reader's unread window, and `Read` returns all ten elements with no error
while `ReadOne` returns the element at the cursor — neither fails with
`ErrStaleReader`. -/
theorem claim2_boundary_counterexample :
    write wFresh "helloworld".toList = some (wTen, 10, none) ∧
    mkReader wTen = some rZero ∧
    (rZero.cycle = wTen.cycle - 1 ∧ rZero.rPos = wTen.wPos ∧
      rZero.autoSkip = false) ∧
    read wTen rZero 10 = .ok ⟨0, 1, false, false, 0⟩ "helloworld".toList 10
      none ∧
    readOne wTen rZero = .ok ⟨1, 0, false, false, 0⟩ (some 'h') none := by
  refine ⟨by decide, by decide, by decide, by decide, by decide⟩


/-- C2 (amended: the stale region is `readLap < lap - 1`, or
`readLap = lap - 1` with `readCursor` *strictly* less than `writeCursor`;
at the boundary `readCursor = writeCursor` the reader is exactly one full
lap behind and still valid, see `claim2_boundary_counterexample`).  For
every open reader with autoSkip disabled whose position lies in that
region, `Read` and `ReadOne` fail with `ErrStaleReader` and leave the
reader's cursor, lap and flags unchanged. -/
theorem claim2_stale_error_leaves_reader_unchanged {α : Type} (w : Writer α)
    (r : Reader) (plen : Nat)
    (hcl : r.closed = 0) (hsk : r.autoSkip = false)
    (hst : r.cycle < w.cycle - 1 ∨ (r.cycle = w.cycle - 1 ∧ r.rPos < w.wPos)) :
    read w r plen = .ok r [] 0 (some .staleReader) ∧
    readOne w r = (.ok r none (some .staleReader) : ReadOneRes α) := by
  refine ⟨?_, readOne_stale w r hcl hsk hst⟩
  rw [read_unfold]
  exact readBody_stale w _ r plen hcl hsk hst

/-- C2 witness: the stale theorem applied at the concrete state `wWrap`
(writer at lap 1, pos 3) with reader `rZero` (lap 0, pos 0 < 3). -/
theorem claim2_witness :
    read wWrap rZero 5 = .ok rZero [] 0 (some .staleReader) ∧
    readOne wWrap rZero = (.ok rZero none (some .staleReader) :
      ReadOneRes Char) :=
  claim2_stale_error_leaves_reader_unchanged wWrap rZero 5 rfl rfl
    (Or.inr ⟨by decide, by decide⟩)

/-- C5: a `Write` whose data exactly fills storage to the end (length
`size - wPos` from an in-range cursor on an open buffer) still increments
the lap by one and returns the cursor to 0 with a full successful count;
concretely (capacity 10): write `"hello"`, read 5, write `"world"` —
the exact-fit write moves the writer to `(lap 1, pos 0)` and the reader's
next `Read` returns `"world"`, not EndOfData. -/
theorem claim5_exact_fit_increments_lap :
    (∀ (α : Type) (w : Writer α) (v : List α),
      w.closed = false → 0 ≤ w.wPos → w.wPos < w.size →
      (w.data.length : Int) = w.size → (v.length : Int) = w.size - w.wPos →
      (write w v).map (fun x => (x.1.cycle, x.1.wPos, x.2.1, x.2.2)) =
        some (w.cycle + 1, 0, (v.length : Int), none)) ∧
    (write wHello "world".toList = some (wTen, 5, none) ∧
     read wTen rFive 5 = .ok ⟨0, 1, false, false, 0⟩ "world".toList 5 none) := by
  constructor
  · intro α w v hcl h0 hlt hdl hv
    have h1 : ¬ (w.closed = true) := by rw [hcl]; simp
    have h2 : ¬ ((v.length : Int) > w.size) := by omega
    have h3 : 0 ≤ w.wPos ∧ w.wPos ≤ (w.data.length : Int) := by omega
    have h4 : ¬ ((v.length : Int) > w.size - w.wPos) := by omega
    have h5 : (v.length : Int) = w.size - w.wPos := hv
    have h6 : w.wPos + (v.length : Int) = w.size := by omega
    simp only [write, if_neg h1, if_neg h2, if_pos h3, if_neg h4, if_pos h5]
    rw [h6, Int.emod_self]
    rfl
  · exact ⟨by decide, by decide⟩

/-- C5 witness: the exact-fit lemma applied at the concrete state `wHello`
(capacity 10, cursor 5) with the five-element write `"world"`. -/
theorem claim5_witness :
    (write wHello "world".toList).map
      (fun x => (x.1.cycle, x.1.wPos, x.2.1, x.2.2)) =
      some (wHello.cycle + 1, 0, (("world".toList).length : Int), none) :=
  claim5_exact_fit_increments_lap.1 Char wHello "world".toList rfl
    (by decide) (by decide) (by decide) (by decide)


/-- The one-element slice `(l.take (i+1)).drop i` read by `Read` on a
1-slot destination is the singleton of the element `ReadOne` indexes. -/
lemma slice_one {α : Type} (l : List α) (i : Int) (h0 : 0 ≤ i)
    (h1 : i < (l.length : Int)) :
    ∃ x, l[i.toNat]? = some x ∧ (l.take (i + 1).toNat).drop i.toNat = [x] := by
  have hk : i.toNat < l.length := by omega
  refine ⟨l[i.toNat], List.getElem?_eq_getElem hk, ?_⟩
  have h2 : (i + 1).toNat = i.toNat + 1 := by omega
  rw [h2, List.drop_take, Nat.add_sub_cancel_left, List.drop_eq_getElem_cons hk]
  rfl

/-- Reading one element as a `Read` outcome: `ReadOne`'s result transferred
to the result type of `Read` on a one-slot destination. -/
def toReadRes {α : Type} : ReadOneRes α → ReadRes α
  | .panics => .panics
  | .blocks => .blocks
  | .ok r (some x) e => .ok r [x] 1 e
  | .ok r none e => .ok r [] 0 e

/-- One-lap-behind entry with a valid tail: `Read` on a 1-slot destination
and `ReadOne` agree (any `recur`, since a 1-slot destination always fits). -/
lemma lap_one_correspond {α : Type} (w : Writer α)
    (recur : Reader → Nat → ReadRes α) (r : Reader)
    (hcl : r.closed = 0) (hcy : r.cycle = w.cycle - 1) (hp : ¬ w.wPos > r.rPos)
    (hr0 : 0 ≤ r.rPos) (hr1 : r.rPos < w.size)
    (hdl : (w.data.length : Int) = w.size) :
    readBody w recur r 1 = toReadRes (readOne w r) := by
  have hfit : w.size - r.rPos ≥ ((1 : Nat) : Int) := by
    rw [Nat.cast_one]; omega
  have hfit1 : w.size - r.rPos ≥ 1 := by omega
  rw [readBody_lap_fit w recur r 1 hcl hcy hp hfit,
    readOne_lap_get w r hcl hcy hp hfit1, if_pos hr0]
  obtain ⟨x, hx, hsl⟩ := slice_one w.data r.rPos hr0 (by omega)
  have hgs : goSlice w.data r.rPos (r.rPos + ((1 : Nat) : Int)) = some [x] := by
    rw [goSlice, if_pos ⟨hr0, by omega, by omega⟩, Nat.cast_one, hsl]
  rw [hgs, hx, Nat.cast_one]
  by_cases hW : r.rPos + 1 ≥ w.size
  · simp only [if_pos hW]; rfl
  · simp only [if_neg hW]; rfl

/-- Caught-up entry with data available: `Read` on a 1-slot destination and
`ReadOne` agree. -/
lemma caught_one_correspond {α : Type} (w : Writer α)
    (recur : Reader → Nat → ReadRes α) (r : Reader)
    (hcl : r.closed = 0) (hc : r.cycle = w.cycle) (hp : r.rPos < w.wPos)
    (hr0 : 0 ≤ r.rPos) (hww : w.wPos ≤ w.size)
    (hdl : (w.data.length : Int) = w.size) :
    readBody w recur r 1 = toReadRes (readOne w r) := by
  have hn2 : (1 : Int) = if ((1 : Nat) : Int) > w.wPos - r.rPos
      then w.wPos - r.rPos else ((1 : Nat) : Int) := by
    rw [Nat.cast_one, if_neg (by omega)]
  rw [readBody_caught w recur r 1 1 hcl hc hp hn2,
    readOne_caught w r hcl hc hp, if_pos hr0]
  obtain ⟨x, hx, hsl⟩ := slice_one w.data r.rPos hr0 (by omega)
  have hgs : goSlice w.data r.rPos (r.rPos + 1) = some [x] := by
    rw [goSlice, if_pos ⟨hr0, by omega, by omega⟩, hsl]
  rw [hgs, hx]
  rfl

/-- C9: `ReadOne` is `Read` specialised to a one-element destination: from
every well-formed reader state (cursor positions inside the storage) the
two functions produce corresponding outcomes — an element with success
exactly when `Read` returns count 1 with that element stored, the same
error with nothing transferred otherwise — and identical final reader
states (cursor, lap and flags). -/
theorem claim9_readone_is_read_one {α : Type} (w : Writer α) (r : Reader)
    (hdl : (w.data.length : Int) = w.size)
    (hw0 : 0 ≤ w.wPos) (hw1 : w.wPos < w.size)
    (hr0 : 0 ≤ r.rPos) (hr1 : r.rPos < w.size) :
    read w r 1 = toReadRes (readOne w r) := by
  rw [read_unfold]
  by_cases hA : r.closed > 0
  · rw [readBody_closed _ _ r 1 hA, readOne_closed w r hA]; rfl
  · have hcl : r.closed = 0 := by omega
    rcases lt_trichotomy r.cycle (w.cycle - 1) with hcy | hcy | hcy
    · by_cases hsk : r.autoSkip = true
      · rw [readBody_skip_far _ _ r 1 hcl hsk hcy, readOne_skip_far w r hcl hsk hcy]
        exact lap_one_correspond w _ _ hcl (by simp) (by simp) hw0 hw1 hdl
      · have hsk' : r.autoSkip = false := by revert hsk; cases r.autoSkip <;> simp
        rw [readBody_stale _ _ r 1 hcl hsk' (Or.inl hcy),
          readOne_stale w r hcl hsk' (Or.inl hcy)]
        rfl
    · by_cases hgt : w.wPos > r.rPos
      · by_cases hsk : r.autoSkip = true
        · rw [readBody_skip_near _ _ r 1 hcl hsk hcy hgt,
            readOne_skip_near w r hcl hsk hcy hgt]
          exact lap_one_correspond w _ _ hcl hcy (by simp) hw0 hw1 hdl
        · have hsk' : r.autoSkip = false := by
            revert hsk; cases r.autoSkip <;> simp
          rw [readBody_stale _ _ r 1 hcl hsk' (Or.inr ⟨hcy, by omega⟩),
            readOne_stale w r hcl hsk' (Or.inr ⟨hcy, by omega⟩)]
          rfl
      · exact lap_one_correspond w _ r hcl hcy hgt hr0 hr1 hdl
    · rcases lt_or_eq_of_le (by omega : w.cycle ≤ r.cycle) with hgt | heq
      · rw [readBody_future _ _ r 1 hcl hgt, readOne_future w r hcl hgt]; rfl
      · have hc : r.cycle = w.cycle := heq.symm
        by_cases hp : r.rPos ≥ w.wPos
        · by_cases hb : r.block = true
          · by_cases hw : w.closed = true
            · rw [readBody_downgrade _ _ r 1 hcl hb hc hp hw,
                readOne_downgrade w r hcl hb hc hp hw,
                readBody_eof w _ ⟨r.rPos, r.cycle, false, r.autoSkip, r.closed⟩
                  1 hcl rfl hc hp,
                readOne_eof w ⟨r.rPos, r.cycle, false, r.autoSkip, r.closed⟩
                  hcl rfl hc hp]
              rfl
            · have hw' : w.closed = false := by revert hw; cases w.closed <;> simp
              rw [readBody_blocks _ _ r 1 hcl hb hc hp hw',
                readOne_blocks w r hcl hb hc hp hw']
              rfl
          · have hb' : r.block = false := by revert hb; cases r.block <;> simp
            rw [readBody_eof _ _ r 1 hcl hb' hc hp, readOne_eof w r hcl hb' hc hp]
            rfl
        · exact caught_one_correspond w _ r hcl hc (by omega) hr0 (by omega) hdl

/-- C9 witness: the correspondence applied at the concrete well-formed
state `wWrap` with reader `rFive`. -/
theorem claim9_witness :
    read wWrap rFive 1 = toReadRes (readOne wWrap rFive) :=
  claim9_readone_is_read_one wWrap rFive (by decide) (by decide) (by decide)
    (by decide) (by decide)


/-- C7 (counterexample): `Read` returns a short count without crossing any
wrap boundary whenever less data is available than the destination holds:
fresh capacity-10 buffer, write `"hello"`, default reader, `Read` into a
128-slot destination returns count 5 (`0 < 5 < 128`) with no error, and the
reader's lap is unchanged with its cursor still inside the lap — no wrap
boundary was crossed. -/
theorem claim7_short_count_counterexample :
    write wFresh "hello".toList = some (wHello, 5, none) ∧
    mkReader wHello = some rZero ∧
    read wHello rZero 128 = .ok rFive "hello".toList 5 none ∧
    ((0 : Int) < 5 ∧ (5 : Int) < 128) ∧
    rFive.cycle = rZero.cycle ∧ rFive.rPos = 5 := by
  refine ⟨by decide, by decide, by decide, by decide, by decide, by decide⟩

/-- One-lap-behind entry of the two-level `read`: a short positive count
means the reader finished exactly at the writer's edge, with every counted
element present in the output. -/
lemma claim7_lap_aux {α : Type} (w : Writer α) (r : Reader) (plen : Nat)
    (r' : Reader) (got : List α) (k : Int) (err : Option GoErr)
    (hdl : (w.data.length : Int) = w.size)
    (hw0 : 0 ≤ w.wPos) (hw1 : w.wPos < w.size)
    (hr0 : 0 ≤ r.rPos) (hr1 : r.rPos < w.size)
    (hcl : r.closed = 0) (hcy : r.cycle = w.cycle - 1) (hp : ¬ w.wPos > r.rPos)
    (hres : readBody w (readBody w (fun _ _ => (.fuelOut : ReadRes α))) r plen =
      .ok r' got k err)
    (hk0 : 0 < k) (hklt : k < (plen : Int)) :
    r'.cycle = w.cycle ∧ r'.rPos = w.wPos ∧ (got.length : Int) = k := by
  by_cases hfit : w.size - r.rPos ≥ (plen : Int)
  · rw [readBody_lap_fit w _ r plen hcl hcy hp hfit] at hres
    have hgs : goSlice w.data r.rPos (r.rPos + (plen : Int)) =
        some ((w.data.take (r.rPos + (plen : Int)).toNat).drop r.rPos.toNat) := by
      rw [goSlice, if_pos ⟨hr0, by omega, by omega⟩]
    rw [hgs] at hres
    by_cases hW : r.rPos + (plen : Int) ≥ w.size
    · simp only [if_pos hW] at hres; cases hres; omega
    · simp only [if_neg hW] at hres; cases hres; omega
  · rw [readBody_lap_wrap w _ r plen hcl hcy hp hfit] at hres
    have hgs : goSliceFrom w.data r.rPos = some (w.data.drop r.rPos.toNat) := by
      rw [goSliceFrom, if_pos ⟨hr0, by omega⟩]
    rw [hgs] at hres
    have hG : 0 ≤ w.size - r.rPos ∧ w.size - r.rPos ≤ (plen : Int) := by omega
    simp only [if_pos hG] at hres
    -- the inner self-call runs at `rPos = 0`, `cycle = w.cycle`
    by_cases hz : (0 : Int) ≥ w.wPos
    · have hwz : w.wPos = 0 := by omega
      by_cases hb : r.block = true
      · by_cases hwcl : w.closed = true
        · rw [readBody_downgrade w _
              ⟨0, r.cycle + 1, r.block, r.autoSkip, r.closed⟩ _ hcl hb
              (by simp only []; omega) (by simp only []; omega) hwcl] at hres
          rw [readBody_eof w _ ⟨0, r.cycle + 1, false, r.autoSkip, r.closed⟩ _
            hcl rfl (by simp only []; omega) (by simp only []; omega)] at hres
          cases hres
          refine ⟨by simp only []; omega, by simp only []; omega, ?_⟩
          simp only [List.append_nil, List.length_take, List.length_drop]
          omega
        · have hwcl' : w.closed = false := by
            revert hwcl; cases w.closed <;> simp
          rw [readBody_blocks w _
            ⟨0, r.cycle + 1, r.block, r.autoSkip, r.closed⟩ _ hcl hb
            (by simp only []; omega) (by simp only []; omega) hwcl'] at hres
          cases hres
      · have hb' : r.block = false := by revert hb; cases r.block <;> simp
        rw [readBody_eof w _ ⟨0, r.cycle + 1, r.block, r.autoSkip, r.closed⟩ _
          hcl hb' (by simp only []; omega) (by simp only []; omega)] at hres
        cases hres
        refine ⟨by simp only []; omega, by simp only []; omega, ?_⟩
        simp only [List.append_nil, List.length_take, List.length_drop]
        omega
    · have hwpos : 0 < w.wPos := by omega
      have hmi : ((((plen : Int) - (w.size - r.rPos)).toNat : Nat) : Int) =
          (plen : Int) - (w.size - r.rPos) := by omega
      by_cases hm : ((((plen : Int) - (w.size - r.rPos)).toNat : Nat) : Int) >
          w.wPos
      · -- inner destination exceeds available data: the call drains to wPos
        rw [readBody_caught w _ ⟨0, r.cycle + 1, r.block, r.autoSkip, r.closed⟩
          _ w.wPos hcl (by simp only []; omega) (by simp only []; omega)
          (by simp only []; rw [if_pos (by omega)]; omega)] at hres
        have hgs2 : goSlice w.data (0 : Int) ((0 : Int) + w.wPos) =
            some ((w.data.take ((0 : Int) + w.wPos).toNat).drop
              (0 : Int).toNat) := by
          rw [goSlice, if_pos ⟨le_refl 0, by omega, by omega⟩]
        rw [hgs2] at hres
        cases hres
        refine ⟨by simp only []; omega, by simp only []; omega, ?_⟩
        simp only [List.length_append, List.length_take, List.length_drop]
        omega
      · -- inner destination fits: the combined count is the full plen,
        -- contradicting the short-count hypothesis
        rw [readBody_caught w _ ⟨0, r.cycle + 1, r.block, r.autoSkip, r.closed⟩
          _ ((((plen : Int) - (w.size - r.rPos)).toNat : Nat) : Int) hcl
          (by simp only []; omega) (by simp only []; omega)
          (by simp only []; rw [if_neg (by omega)])] at hres
        have hgs2 : goSlice w.data (0 : Int)
            ((0 : Int) + ((((plen : Int) - (w.size - r.rPos)).toNat : Nat) : Int)) =
            some ((w.data.take ((0 : Int) +
              ((((plen : Int) - (w.size - r.rPos)).toNat : Nat) : Int)).toNat).drop
              (0 : Int).toNat) := by
          rw [goSlice, if_pos ⟨le_refl 0, by omega, by omega⟩]
        rw [hgs2] at hres
        cases hres
        omega


/-- C7 (amended: a short count need not involve a wrap — see
`claim7_short_count_counterexample` — rather, it means the read drained
everything available).  For every well-formed state, if `Read` returns a
count `k` with `0 < k < n` (destination length `n`), then the reader has
consumed all available data — its final position is exactly the writer's
edge (`cycle = lap`, `rPos = writeCursor`) — and no data is dropped: the
output holds exactly `k` elements.  When such a read crosses the one wrap
boundary, the two legs are combined into that single count. -/
theorem claim7_short_count_drains {α : Type} (w : Writer α) (r : Reader)
    (plen : Nat) (r' : Reader) (got : List α) (k : Int) (err : Option GoErr)
    (hdl : (w.data.length : Int) = w.size)
    (hw0 : 0 ≤ w.wPos) (hw1 : w.wPos < w.size)
    (hr0 : 0 ≤ r.rPos) (hr1 : r.rPos < w.size)
    (hres : read w r plen = .ok r' got k err)
    (hk0 : 0 < k) (hklt : k < (plen : Int)) :
    r'.cycle = w.cycle ∧ r'.rPos = w.wPos ∧ (got.length : Int) = k := by
  rw [read_unfold] at hres
  by_cases hA : r.closed > 0
  · rw [readBody_closed _ _ r plen hA] at hres; cases hres; omega
  · have hcl : r.closed = 0 := by omega
    rcases lt_trichotomy r.cycle (w.cycle - 1) with hcy | hcy | hcy
    · by_cases hsk : r.autoSkip = true
      · rw [readBody_skip_far _ _ r plen hcl hsk hcy] at hres
        exact claim7_lap_aux w
          ⟨w.wPos, w.cycle - 1, r.block, r.autoSkip, r.closed⟩ plen r' got k
          err hdl hw0 hw1 (by simp only []; omega) (by simp only []; omega)
          hcl rfl (by simp only []; omega) hres hk0 hklt
      · have hsk' : r.autoSkip = false := by revert hsk; cases r.autoSkip <;> simp
        rw [readBody_stale _ _ r plen hcl hsk' (Or.inl hcy)] at hres
        cases hres; omega
    · by_cases hgt : w.wPos > r.rPos
      · by_cases hsk : r.autoSkip = true
        · rw [readBody_skip_near _ _ r plen hcl hsk hcy hgt] at hres
          exact claim7_lap_aux w
            ⟨w.wPos, r.cycle, r.block, r.autoSkip, r.closed⟩ plen r' got k err
            hdl hw0 hw1 (by simp only []; omega) (by simp only []; omega)
            hcl (by simp only []; omega) (by simp only []; omega) hres hk0 hklt
        · have hsk' : r.autoSkip = false := by
            revert hsk; cases r.autoSkip <;> simp
          rw [readBody_stale _ _ r plen hcl hsk' (Or.inr ⟨hcy, by omega⟩)] at hres
          cases hres; omega
      · exact claim7_lap_aux w r plen r' got k err hdl hw0 hw1 hr0 hr1 hcl
          hcy hgt hres hk0 hklt
    · rcases lt_or_eq_of_le (by omega : w.cycle ≤ r.cycle) with hgtc | heq
      · rw [readBody_future _ _ r plen hcl hgtc] at hres; cases hres; omega
      · have hc : r.cycle = w.cycle := heq.symm
        by_cases hp : r.rPos ≥ w.wPos
        · by_cases hb : r.block = true
          · by_cases hwcl : w.closed = true
            · rw [readBody_downgrade _ _ r plen hcl hb hc hp hwcl,
                readBody_eof w _ ⟨r.rPos, r.cycle, false, r.autoSkip, r.closed⟩
                  plen hcl rfl hc hp] at hres
              cases hres; omega
            · have hwcl' : w.closed = false := by
                revert hwcl; cases w.closed <;> simp
              rw [readBody_blocks _ _ r plen hcl hb hc hp hwcl'] at hres
              cases hres
          · have hb' : r.block = false := by revert hb; cases r.block <;> simp
            rw [readBody_eof _ _ r plen hcl hb' hc hp] at hres
            cases hres; omega
        · have hplt : r.rPos < w.wPos := by omega
          by_cases hm : (plen : Int) > w.wPos - r.rPos
          · rw [readBody_caught w _ r plen (w.wPos - r.rPos) hcl hc hplt
              (by rw [if_pos hm])] at hres
            have hgs : goSlice w.data r.rPos (r.rPos + (w.wPos - r.rPos)) =
                some ((w.data.take (r.rPos + (w.wPos - r.rPos)).toNat).drop
                  r.rPos.toNat) := by
              rw [goSlice, if_pos ⟨hr0, by omega, by omega⟩]
            rw [hgs] at hres
            cases hres
            refine ⟨hc, by simp only []; omega, ?_⟩
            simp only [List.length_take, List.length_drop]
            omega
          · rw [readBody_caught w _ r plen (plen : Int) hcl hc hplt
              (by rw [if_neg hm])] at hres
            have hgs : goSlice w.data r.rPos (r.rPos + (plen : Int)) =
                some ((w.data.take (r.rPos + (plen : Int)).toNat).drop
                  r.rPos.toNat) := by
              rw [goSlice, if_pos ⟨hr0, by omega, by omega⟩]
            rw [hgs] at hres
            cases hres
            omega

/-- C7 witness: the short-count theorem applied at the concrete state of
`claim7_short_count_counterexample` — the 128-slot read of `"hello"`
returns 5 < 128 and indeed leaves the reader exactly at the writer's edge
with all five elements delivered. -/
theorem claim7_witness :
    rFive.cycle = wHello.cycle ∧ rFive.rPos = wHello.wPos ∧
      (("hello".toList).length : Int) = 5 :=
  claim7_short_count_drains wHello rZero 128 rFive "hello".toList 5 none
    (by decide) (by decide) (by decide) (by decide) (by decide) (by decide)
    (by decide) (by decide)


/-- A sequence of `Write` calls, each required to succeed with a nil
error (which `Write` always does on an open buffer unless it panics). -/
def writeAll {α : Type} (w : Writer α) : List (List α) → Option (Writer α)
  | [] => some w
  | v :: vs =>
    match write w v with
    | some (w', _, none) => writeAll w' vs
    | _ => none

/-- Repeatedly calling `Read` with the given destination sizes, collecting
everything read; `none` if any call panics, suspends, or returns an
error. -/
def readSeq {α : Type} (w : Writer α) (r : Reader) :
    List Nat → Option (Reader × List α)
  | [] => some (r, [])
  | n :: ns =>
    match read w r n with
    | .ok r' got _ none =>
      match readSeq w r' ns with
      | some (rF, rest) => some (rF, got ++ rest)
      | none => none
    | _ => none

/-- The writer state after `acc` elements have been appended to a fresh
buffer of capacity `C` (zero value `d`) with no reads in between: storage
holds `acc` followed by untouched zero slots, and the cursor either sits at
`acc.length` on lap 0 or has just wrapped to `(lap 1, pos 0)` when the
data fills the buffer exactly. -/
def midState {α : Type} (C : Int) (d : α) (acc : List α) : Writer α :=
  if (acc.length : Int) = C then ⟨acc, C, 0, 1, false⟩
  else ⟨acc ++ List.replicate (C - acc.length).toNat d, C,
    (acc.length : Int), 0, false⟩

lemma copyAt_append_replicate {α : Type} (acc v : List α) (k : Nat) (d : α)
    (hl : v.length ≤ k) :
    copyAt (acc ++ List.replicate k d) acc.length v =
      acc ++ v ++ List.replicate (k - v.length) d := by
  rw [copyAt, goCopy, List.take_left, List.drop_left, List.length_replicate,
    List.take_of_length_le (le_of_eq rfl |>.trans hl),
    min_eq_right hl, List.drop_replicate, List.append_assoc]

lemma write_mid {α : Type} (C : Int) (d : α) (acc v : List α)
    (hC : 0 < C) (hle : ((acc.length : Int) + (v.length : Int)) ≤ C) :
    write (midState C d acc) v =
      some (midState C d (acc ++ v), (v.length : Int), none) := by
  by_cases hacc : (acc.length : Int) = C
  · -- buffer exactly full: only the empty write is allowed by `hle`
    have hv : v = [] := List.length_eq_zero.mp (by omega)
    subst hv
    rw [midState, if_pos hacc, midState, List.append_nil, if_pos hacc]
    have h1 : ¬ ((false : Bool) = true) := by simp
    have h2 : ¬ ((([] : List α).length : Int) > C) := by simp; omega
    have h3 : (0 : Int) ≤ 0 ∧ (0 : Int) ≤ (acc.length : Int) := by omega
    have h4 : ¬ ((([] : List α).length : Int) > C - 0) := by simp; omega
    have h5 : ¬ ((([] : List α).length : Int) = C - 0) := by simp; omega
    simp only [write, if_neg h1, if_neg h2, if_pos h3, if_neg h4, if_neg h5]
    have hz : ((0 : Int) + (([] : List α).length : Int)) % C = 0 := by
      simp
    rw [hz]
    have hcpy : copyAt acc (0 : Int).toNat [] = acc := by
      rw [copyAt, goCopy]
      simp
    rw [hcpy]
  · have haccLt : (acc.length : Int) < C := by
      rcases lt_or_ge ((acc.length : Int)) C with h | h
      · exact h
      · omega
    rw [midState, if_neg hacc]
    have h1 : ¬ ((false : Bool) = true) := by simp
    have h2 : ¬ ((v.length : Int) > C) := by omega
    have hdlen : (((acc ++ List.replicate (C - (acc.length : Int)).toNat
        d).length : Int)) = C := by
      rw [List.length_append, List.length_replicate]
      omega
    have h3 : (0 : Int) ≤ (acc.length : Int) ∧ (acc.length : Int) ≤
        (((acc ++ List.replicate (C - (acc.length : Int)).toNat d).length :
          Int)) := by omega
    have hcast : ((acc.length : Int)).toNat = acc.length := by omega
    have hcpy : copyAt (acc ++ List.replicate (C - (acc.length : Int)).toNat d)
        ((acc.length : Int)).toNat v =
        acc ++ v ++ List.replicate ((C - (acc.length : Int)).toNat - v.length)
          d := by
      rw [hcast]
      exact copyAt_append_replicate acc v _ d (by omega)
    by_cases hfill : (v.length : Int) = C - (acc.length : Int)
    · -- the write ends exactly at the end of storage
      have h4 : ¬ ((v.length : Int) > C - (acc.length : Int)) := by omega
      simp only [write, if_neg h1, if_neg h2, if_pos h3, if_neg h4,
        if_pos hfill]
      rw [hcpy]
      have hz : ((acc.length : Int) + (v.length : Int)) % C = 0 := by
        have : (acc.length : Int) + (v.length : Int) = C := by omega
        rw [this, Int.emod_self]
      rw [hz]
      have hrep : (C - (acc.length : Int)).toNat - v.length = 0 := by omega
      rw [hrep, List.replicate_zero, List.append_nil]
      rw [midState, if_pos (by rw [List.length_append]; push_cast; omega)]
      norm_num
    · have h4 : ¬ ((v.length : Int) > C - (acc.length : Int)) := by omega
      simp only [write, if_neg h1, if_neg h2, if_pos h3, if_neg h4,
        if_neg hfill]
      rw [hcpy]
      have hz : ((acc.length : Int) + (v.length : Int)) % C =
          (acc.length : Int) + (v.length : Int) := by
        apply Int.emod_eq_of_lt (by omega) (by omega)
      rw [hz]
      rw [midState, if_neg (by rw [List.length_append]; push_cast; omega)]
      have hrep : (C - (acc.length : Int)).toNat - v.length =
          (C - ((acc ++ v).length : Int)).toNat := by
        rw [List.length_append]; push_cast; omega
      rw [hrep, List.append_assoc]
      have hlen2 : (((acc ++ v).length : Int)) =
          (acc.length : Int) + (v.length : Int) := by
        rw [List.length_append]; push_cast; ring
      rw [hlen2]

/-- Writing chunks with no interleaved reads walks `midState` along the
concatenation. -/
lemma writeAll_mid {α : Type} (C : Int) (d : α) :
    ∀ (ws : List (List α)) (acc : List α), 0 < C →
    ((acc.length : Int) + (ws.flatten.length : Int)) ≤ C →
    writeAll (midState C d acc) ws = some (midState C d (acc ++ ws.flatten)) := by
  intro ws
  induction ws with
  | nil =>
    intro acc hC hle
    rw [writeAll, List.flatten_nil, List.append_nil]
  | cons v vs ih =>
    intro acc hC hle
    rw [List.flatten_cons] at hle ⊢
    have hlen : ((v ++ vs.flatten).length : Int) =
        (v.length : Int) + (vs.flatten.length : Int) := by
      rw [List.length_append]; push_cast; ring
    rw [writeAll, write_mid C d acc v hC (by omega)]
    show writeAll (midState C d (acc ++ v)) vs = _
    rw [ih (acc ++ v) hC (by rw [List.length_append]; push_cast; omega)]
    rw [List.append_assoc]


/-- The reader state after the default reader of a fresh buffer has
consumed `j` of the `W` elements written so far: position `j` of lap 0,
except that consuming the whole of an exactly-full buffer wraps it to
`(lap 1, pos 0)`. -/
def readerAt (C : Int) (W : Nat) (j : Nat) : Reader :=
  if (W : Int) = C ∧ (j : Int) = C then ⟨0, 1, false, false, 0⟩
  else ⟨(j : Int), 0, false, false, 0⟩

lemma take_drop_self {α : Type} (J : List α) (j n : Nat)
    (hjn : j + n ≤ J.length) :
    (J.take (((j : Int)) + ((n : Int))).toNat).drop ((j : Int)).toNat =
      (J.drop j).take n := by
  have h1 : (((j : Int)) + ((n : Int))).toNat = j + n := by omega
  have h2 : ((j : Int)).toNat = j := by omega
  rw [h1, h2, List.drop_take, Nat.add_sub_cancel_left]

lemma take_take_self {α : Type} (J : List α) (j n : Nat) :
    ((J.drop j).take n).take n = (J.drop j).take n := by
  rw [List.take_take, min_self]

/-- One `Read` against the state left by uninterrupted writes: destination
`n`, positions `j` to `j + n` still unread. -/
lemma read_step {α : Type} (C : Int) (d : α) (J : List α) (j n : Nat)
    (hC : 0 < C) (hW : (J.length : Int) ≤ C) (hjn : j + n ≤ J.length)
    (hn : 0 < n) :
    read (midState C d J) (readerAt C J.length j) n =
      .ok (readerAt C J.length (j + n)) ((J.drop j).take n) (n : Int) none := by
  have hj : j < J.length := by omega
  by_cases hfull : ((J.length : Int)) = C
  · -- buffer exactly full: the reader is one lap behind
    have hm : midState C d J = ⟨J, C, 0, 1, false⟩ := by
      rw [midState, if_pos hfull]
    have hra : readerAt C J.length j = ⟨(j : Int), 0, false, false, 0⟩ := by
      rw [readerAt, if_neg]
      rintro ⟨-, h⟩; omega
    rw [hm, hra, read_unfold,
      readBody_lap_fit _ _ ⟨(j : Int), 0, false, false, 0⟩ n rfl
        (by simp only []; omega) (by simp only []; omega)
        (by simp only []; omega)]
    have hgs : goSlice J ((j : Int)) (((j : Int)) + ((n : Int))) =
        some ((J.drop j).take n) := by
      rw [goSlice, if_pos ⟨by omega, by omega, by omega⟩,
        take_drop_self J j n hjn]
    rw [hgs]
    by_cases hwrap : ((j : Int)) + ((n : Int)) ≥ C
    · have hrw : readerAt C J.length (j + n) = ⟨0, 1, false, false, 0⟩ := by
        rw [readerAt, if_pos ⟨hfull, by push_cast; omega⟩]
      rw [hrw]
      simp only [if_pos hwrap, List.take_take, min_self]
      norm_num
    · have hrw : readerAt C J.length (j + n) =
          ⟨((j + n : Nat) : Int), 0, false, false, 0⟩ := by
        rw [readerAt, if_neg]
        rintro ⟨-, h⟩; push_cast at h; omega
      rw [hrw]
      simp only [if_neg hwrap, List.take_take, min_self]
      push_cast
      rfl
  · -- buffer not yet full: the reader is caught up on lap 0
    have hWlt : ((J.length : Int)) < C := by omega
    have hm : midState C d J =
        ⟨J ++ List.replicate (C - (J.length : Int)).toNat d, C,
          (J.length : Int), 0, false⟩ := by
      rw [midState, if_neg hfull]
    have hra : readerAt C J.length j = ⟨(j : Int), 0, false, false, 0⟩ := by
      rw [readerAt, if_neg]
      rintro ⟨h, -⟩; omega
    rw [hm, hra, read_unfold,
      readBody_caught _ _ ⟨(j : Int), 0, false, false, 0⟩ n ((n : Int)) rfl
        rfl (by simp only []; omega)
        (by simp only []; rw [if_neg (by omega)])]
    have hdlen : (((J ++ List.replicate (C - (J.length : Int)).toNat
        d).length : Int)) = C := by
      rw [List.length_append, List.length_replicate]; omega
    have hgs : goSlice (J ++ List.replicate (C - (J.length : Int)).toNat d)
        ((j : Int)) (((j : Int)) + ((n : Int))) =
        some ((J.drop j).take n) := by
      rw [goSlice, if_pos ⟨by omega, by omega, by omega⟩,
        List.take_append_of_le_length (by omega : ((j : Int) +
          (n : Int)).toNat ≤ J.length), take_drop_self J j n hjn]
    rw [hgs]
    have hrw : readerAt C J.length (j + n) =
        ⟨((j + n : Nat) : Int), 0, false, false, 0⟩ := by
      rw [readerAt, if_neg]
      rintro ⟨h, -⟩; omega
    rw [hrw]
    simp only [List.take_take, min_self]
    push_cast
    rfl


/-- Repeated reads against the post-write state walk `readerAt` along the
written data. -/
lemma readSeq_mid {α : Type} (C : Int) (d : α) (J : List α)
    (hC : 0 < C) (hW : (J.length : Int) ≤ C) :
    ∀ (sizes : List Nat) (j : Nat), j + sizes.sum ≤ J.length →
    (∀ n ∈ sizes, 0 < n) →
    readSeq (midState C d J) (readerAt C J.length j) sizes =
      some (readerAt C J.length (j + sizes.sum), (J.drop j).take sizes.sum) := by
  intro sizes
  induction sizes with
  | nil =>
    intro j hle hpos
    rw [readSeq]
    simp
  | cons n ns ih =>
    intro j hle hpos
    rw [List.sum_cons] at hle ⊢
    have hn : 0 < n := hpos n (List.mem_cons_self n ns)
    rw [readSeq, read_step C d J j n hC hW (by omega) hn]
    show (match readSeq (midState C d J) (readerAt C J.length (j + n)) ns with
      | some (rF, rest) => some (rF, (J.drop j).take n ++ rest)
      | none => none) = _
    rw [ih (j + n) (by omega) (fun m hm => hpos m (List.mem_cons_of_mem n hm))]
    show some (readerAt C J.length (j + n + ns.sum),
      (J.drop j).take n ++ (J.drop (j + n)).take ns.sum) = _
    have hsplit : (J.drop j).take (n + ns.sum) =
        (J.drop j).take n ++ ((J.drop j).drop n).take ns.sum :=
      List.take_add _ n _
    rw [List.drop_drop] at hsplit
    rw [← hsplit]
    have hadd : j + n + ns.sum = j + (n + ns.sum) := by omega
    rw [hadd]

/-- C4: for every capacity `C > 0`, every sequence of `Write` calls whose
total length `W` is at most `C` performed on a fresh buffer with no
interleaved reads, and the default-factory reader created before those
writes (it sits at `(lap 0, pos 0)`), repeatedly calling `Read` afterwards
with any positive destination sizes totalling `W` succeeds every time and
returns exactly the `W` written elements, in the order they were
written. -/
theorem claim4_reader_sees_all_writes {α : Type} (zero : α) (C : Int)
    (ws : List (List α)) (sizes : List Nat)
    (hC : 0 < C) (hW : (ws.flatten.length : Int) ≤ C)
    (hsum : sizes.sum = ws.flatten.length) (hpos : ∀ n ∈ sizes, 0 < n) :
    ((new C zero).bind (fun w0 => mkReader w0)) = some rZero ∧
    (((new C zero).bind (fun w0 => writeAll w0 ws)).bind
      (fun wF => (readSeq wF rZero sizes).map Prod.snd)) = some ws.flatten := by
  have hnew : new C zero = some (midState C zero []) := by
    rw [new, if_neg (by omega : ¬ C ≤ 0), midState,
      if_neg (by simp; omega)]
    simp
  constructor
  · rw [hnew]
    show mkReader (midState C zero []) = some rZero
    rw [midState, if_neg (by simp; omega), mkReader, if_neg (by simp)]
    norm_num [rZero]
  · rw [hnew]
    show ((writeAll (midState C zero []) ws).bind
      (fun wF => (readSeq wF rZero sizes).map Prod.snd)) = some ws.flatten
    rw [writeAll_mid C zero ws []
      (hC) (by simp only [List.length_nil, Nat.cast_zero, zero_add]; exact hW),
      List.nil_append]
    show (readSeq (midState C zero ws.flatten) rZero sizes).map Prod.snd =
      some ws.flatten
    have hrz : readerAt C ws.flatten.length 0 = rZero := by
      rw [readerAt, if_neg]
      · rfl
      · rintro ⟨-, h⟩
        simp at h
        omega
    rw [← hrz, readSeq_mid C zero ws.flatten hC hW sizes 0 (by omega) hpos]
    rw [Option.map_some']
    show some ((ws.flatten.drop 0).take sizes.sum) = _
    rw [List.drop_zero, hsum, List.take_length]

/-- C4 witness: capacity 10, writes `"hello"` then `"world"` (total 10) on a
fresh buffer, default reader created first, then two 5-slot reads: every
element comes back in order. -/
theorem claim4_witness :
    ((new 10 'x').bind (fun w0 => mkReader w0)) = some rZero ∧
    (((new 10 'x').bind (fun w0 =>
        writeAll w0 ["hello".toList, "world".toList])).bind
      (fun wF => (readSeq wF rZero [5, 5]).map Prod.snd)) =
      some (["hello".toList, "world".toList].flatten) :=
  claim4_reader_sees_all_writes 'x' 10 ["hello".toList, "world".toList]
    [5, 5] (by decide) (by decide) (by decide)
    (by intro n hn; simp at hn; omega)


/-- A successful `Write` never decreases the lap counter. -/
lemma write_cycle_mono {α : Type} {w w' : Writer α} {v : List α} {n : Int}
    {e : Option GoErr} (h : write w v = some (w', n, e)) :
    w.cycle ≤ w'.cycle := by
  unfold write at h
  dsimp only at h
  split_ifs at h
  all_goals cases h
  all_goals try simp only []
  all_goals try omega
  all_goals
    have hlen : (v.drop ((v.length : Int) - w.size).toNat).length =
      v.length - ((v.length : Int) - w.size).toNat := List.length_drop _ _
  all_goals try omega
  all_goals
    have hdiv : 0 ≤ Int.tdiv ((v.length : Int)) w.size :=
      Int.tdiv_nonneg (by omega) (by omega)
  all_goals omega


/-- A caught-up call (any `recur`): the returned reader stays at
`cycle ≤ w.cycle` and the defensive future error is not produced. -/
lemma readBody_cycle_eq_preserves {α : Type} (w : Writer α)
    (recur : Reader → Nat → ReadRes α) (r : Reader) (plen : Nat)
    (hc : r.cycle = w.cycle) :
    ∀ r' got n e, readBody w recur r plen = .ok r' got n e →
      r'.cycle ≤ w.cycle ∧ e ≠ some .readerInFuture := by
  intro r' got n e h
  by_cases hA : r.closed > 0
  · rw [readBody_closed w recur r plen hA] at h
    cases h; exact ⟨by omega, by simp⟩
  · have hcl : r.closed = 0 := by omega
    by_cases hp : r.rPos ≥ w.wPos
    · by_cases hb : r.block = true
      · by_cases hw : w.closed = true
        · rw [readBody_downgrade w recur r plen hcl hb hc hp hw,
            readBody_eof w recur ⟨r.rPos, r.cycle, false, r.autoSkip, r.closed⟩
              plen hcl rfl hc hp] at h
          cases h; exact ⟨by simp only []; omega, by simp⟩
        · have hw' : w.closed = false := by revert hw; cases w.closed <;> simp
          rw [readBody_blocks w recur r plen hcl hb hc hp hw'] at h
          cases h
      · have hb' : r.block = false := by revert hb; cases r.block <;> simp
        rw [readBody_eof w recur r plen hcl hb' hc hp] at h
        cases h; exact ⟨by omega, by simp⟩
    · have hp' : r.rPos < w.wPos := by omega
      rw [readBody_caught w recur r plen _ hcl hc hp' rfl] at h
      rcases hgs : goSlice w.data r.rPos (r.rPos +
          (if (plen : Int) > w.wPos - r.rPos then w.wPos - r.rPos
            else (plen : Int))) with _ | src <;> rw [hgs] at h
      · cases h
      · cases h; exact ⟨by simp only []; omega, by simp⟩

/-- A one-lap-behind call of the two-level body: same preservation. -/
lemma readBody_lap_preserves {α : Type} (w : Writer α) (r : Reader) (plen : Nat)
    (hcl : r.closed = 0) (hcy : r.cycle = w.cycle - 1) (hp : ¬ w.wPos > r.rPos) :
    ∀ r' got n e,
      readBody w (readBody w (fun _ _ => (.fuelOut : ReadRes α))) r plen =
        .ok r' got n e →
      r'.cycle ≤ w.cycle ∧ e ≠ some .readerInFuture := by
  intro r' got n e h
  by_cases hfit : w.size - r.rPos ≥ (plen : Int)
  · rw [readBody_lap_fit w _ r plen hcl hcy hp hfit] at h
    rcases hgs : goSlice w.data r.rPos (r.rPos + (plen : Int)) with _ | src <;>
      rw [hgs] at h
    · cases h
    · by_cases hW : r.rPos + (plen : Int) ≥ w.size
      · simp only [if_pos hW] at h
        cases h; exact ⟨by simp only []; omega, by simp⟩
      · simp only [if_neg hW] at h
        cases h; exact ⟨by simp only []; omega, by simp⟩
  · rw [readBody_lap_wrap w _ r plen hcl hcy hp hfit] at h
    rcases hgs : goSliceFrom w.data r.rPos with _ | src <;> rw [hgs] at h
    · cases h
    · by_cases hG : 0 ≤ w.size - r.rPos ∧ w.size - r.rPos ≤ (plen : Int)
      · simp only [if_pos hG] at h
        rcases hres : readBody w (fun _ _ => (.fuelOut : ReadRes α))
            ⟨0, r.cycle + 1, r.block, r.autoSkip, r.closed⟩
            ((plen : Int) - (w.size - r.rPos)).toNat with _ | _ | _ | ⟨r5, g2, n2, e2⟩
        all_goals rw [hres] at h
        · cases h
        · cases h
        · cases h
        · have hconc := readBody_cycle_eq_preserves w
            (fun _ _ => (.fuelOut : ReadRes α))
            ⟨0, r.cycle + 1, r.block, r.autoSkip, r.closed⟩
            ((plen : Int) - (w.size - r.rPos)).toNat (by simp only []; omega)
            r5 g2 n2 e2 hres
          cases h
          exact hconc
      · simp only [if_neg hG] at h
        cases h

/-- Any `Read` from a reader not ahead of the writer leaves the reader not
ahead of the writer and never reports the defensive future error. -/
lemma read_preserves {α : Type} (w : Writer α) (r : Reader) (plen : Nat)
    (hc : r.cycle ≤ w.cycle) :
    ∀ r' got n e, read w r plen = .ok r' got n e →
      r'.cycle ≤ w.cycle ∧ e ≠ some .readerInFuture := by
  intro r' got n e h
  rw [read_unfold] at h
  by_cases hA : r.closed > 0
  · rw [readBody_closed _ _ r plen hA] at h
    cases h; exact ⟨by omega, by simp⟩
  · have hcl : r.closed = 0 := by omega
    rcases lt_trichotomy r.cycle (w.cycle - 1) with hcy | hcy | hcy
    · by_cases hsk : r.autoSkip = true
      · rw [readBody_skip_far _ _ r plen hcl hsk hcy] at h
        exact readBody_lap_preserves w
          ⟨w.wPos, w.cycle - 1, r.block, r.autoSkip, r.closed⟩ plen hcl rfl
          (by simp only []; omega) r' got n e h
      · have hsk' : r.autoSkip = false := by revert hsk; cases r.autoSkip <;> simp
        rw [readBody_stale _ _ r plen hcl hsk' (Or.inl hcy)] at h
        cases h; exact ⟨by omega, by simp⟩
    · by_cases hgt : w.wPos > r.rPos
      · by_cases hsk : r.autoSkip = true
        · rw [readBody_skip_near _ _ r plen hcl hsk hcy hgt] at h
          exact readBody_lap_preserves w
            ⟨w.wPos, r.cycle, r.block, r.autoSkip, r.closed⟩ plen hcl
            (by simp only []; omega) (by simp only []; omega) r' got n e h
        · have hsk' : r.autoSkip = false := by
            revert hsk; cases r.autoSkip <;> simp
          rw [readBody_stale _ _ r plen hcl hsk' (Or.inr ⟨hcy, by omega⟩)] at h
          cases h; exact ⟨by omega, by simp⟩
      · exact readBody_lap_preserves w r plen hcl hcy hgt r' got n e h
    · rcases lt_or_eq_of_le (by omega : w.cycle ≤ r.cycle) with hgtc | heq
      · omega
      · exact readBody_cycle_eq_preserves w _ r plen heq.symm r' got n e h


/-- One-lap-behind `ReadOne`: preservation of `cycle ≤ w.cycle` and absence
of the future error. -/
lemma readOne_lap_preserves {α : Type} (w : Writer α) (r : Reader)
    (hcl : r.closed = 0) (hcy : r.cycle = w.cycle - 1) (hp : ¬ w.wPos > r.rPos) :
    ∀ (r' : Reader) (x : Option α) (e : Option GoErr), readOne w r = .ok r' x e →
      r'.cycle ≤ w.cycle ∧ e ≠ some .readerInFuture := by
  intro r' x e h
  by_cases hfit : w.size - r.rPos ≥ 1
  · rw [readOne_lap_get w r hcl hcy hp hfit] at h
    by_cases h0 : (0 : Int) ≤ r.rPos
    · rw [if_pos h0] at h
      rcases hgs : w.data[r.rPos.toNat]? with _ | y <;> rw [hgs] at h
      · cases h
      · by_cases hW : r.rPos + 1 ≥ w.size
        · simp only [if_pos hW] at h
          cases h; exact ⟨by simp only []; omega, by simp⟩
        · simp only [if_neg hW] at h
          cases h; exact ⟨by simp only []; omega, by simp⟩
    · rw [if_neg h0] at h
      cases h
  · rw [readOne_lap_zero w r hcl hcy hp hfit] at h
    rcases hgs : w.data[0]? with _ | y <;> rw [hgs] at h
    · cases h
    · cases h; exact ⟨by simp only []; omega, by simp⟩

/-- A caught-up `ReadOne`: same preservation. -/
lemma readOne_cycle_eq_preserves {α : Type} (w : Writer α) (r : Reader)
    (hc : r.cycle = w.cycle) :
    ∀ (r' : Reader) (x : Option α) (e : Option GoErr), readOne w r = .ok r' x e →
      r'.cycle ≤ w.cycle ∧ e ≠ some .readerInFuture := by
  intro r' x e h
  by_cases hA : r.closed > 0
  · rw [readOne_closed w r hA] at h
    cases h; exact ⟨by omega, by simp⟩
  · have hcl : r.closed = 0 := by omega
    by_cases hp : r.rPos ≥ w.wPos
    · by_cases hb : r.block = true
      · by_cases hw : w.closed = true
        · rw [readOne_downgrade w r hcl hb hc hp hw,
            readOne_eof w ⟨r.rPos, r.cycle, false, r.autoSkip, r.closed⟩
              hcl rfl hc hp] at h
          cases h; exact ⟨by simp only []; omega, by simp⟩
        · have hw' : w.closed = false := by revert hw; cases w.closed <;> simp
          rw [readOne_blocks w r hcl hb hc hp hw'] at h
          cases h
      · have hb' : r.block = false := by revert hb; cases r.block <;> simp
        rw [readOne_eof w r hcl hb' hc hp] at h
        cases h; exact ⟨by omega, by simp⟩
    · have hp' : r.rPos < w.wPos := by omega
      rw [readOne_caught w r hcl hc hp'] at h
      by_cases h0 : (0 : Int) ≤ r.rPos
      · rw [if_pos h0] at h
        rcases hgs : w.data[r.rPos.toNat]? with _ | y <;> rw [hgs] at h
        · cases h
        · cases h; exact ⟨by simp only []; omega, by simp⟩
      · rw [if_neg h0] at h
        cases h

/-- Any `ReadOne` from a reader not ahead of the writer leaves the reader
not ahead of the writer and never reports the defensive future error. -/
lemma readOne_preserves {α : Type} (w : Writer α) (r : Reader)
    (hc : r.cycle ≤ w.cycle) :
    ∀ (r' : Reader) (x : Option α) (e : Option GoErr), readOne w r = .ok r' x e →
      r'.cycle ≤ w.cycle ∧ e ≠ some .readerInFuture := by
  intro r' x e h
  by_cases hA : r.closed > 0
  · rw [readOne_closed w r hA] at h
    cases h; exact ⟨by omega, by simp⟩
  · have hcl : r.closed = 0 := by omega
    rcases lt_trichotomy r.cycle (w.cycle - 1) with hcy | hcy | hcy
    · by_cases hsk : r.autoSkip = true
      · rw [readOne_skip_far w r hcl hsk hcy] at h
        exact readOne_lap_preserves w
          ⟨w.wPos, w.cycle - 1, r.block, r.autoSkip, r.closed⟩ hcl rfl
          (by simp only []; omega) r' x e h
      · have hsk' : r.autoSkip = false := by revert hsk; cases r.autoSkip <;> simp
        rw [readOne_stale w r hcl hsk' (Or.inl hcy)] at h
        cases h; exact ⟨by omega, by simp⟩
    · by_cases hgt : w.wPos > r.rPos
      · by_cases hsk : r.autoSkip = true
        · rw [readOne_skip_near w r hcl hsk hcy hgt] at h
          exact readOne_lap_preserves w
            ⟨w.wPos, r.cycle, r.block, r.autoSkip, r.closed⟩ hcl
            (by simp only []; omega) (by simp only []; omega) r' x e h
        · have hsk' : r.autoSkip = false := by
            revert hsk; cases r.autoSkip <;> simp
          rw [readOne_stale w r hcl hsk' (Or.inr ⟨hcy, by omega⟩)] at h
          cases h; exact ⟨by omega, by simp⟩
      · exact readOne_lap_preserves w r hcl hcy hgt r' x e h
    · rcases lt_or_eq_of_le (by omega : w.cycle ≤ r.cycle) with hgtc | heq
      · omega
      · exact readOne_cycle_eq_preserves w r heq.symm r' x e h


/-- Reader states reachable through the API: creation by any of the three
factories from any buffer state, and closure under `Write` (by the writer),
`Read`/`ReadOne`, `Reset`, `SetAutoSkip`, `Close` (on the reader) and
`Close` (on the writer). -/
inductive Reach (α : Type) : Writer α → Reader → Prop where
  | create (w : Writer α) (r : Reader) :
      mkReader w = some r → Reach α w r
  | createBlocking (w : Writer α) (r : Reader) :
      mkBlockingReader w = some r → Reach α w r
  | createCurrent (w : Writer α) (r : Reader) :
      mkBlockingCurrentReader w = some r → Reach α w r
  | writeStep (w w' : Writer α) (r : Reader) (v : List α) (n : Int)
      (e : Option GoErr) :
      Reach α w r → write w v = some (w', n, e) → Reach α w' r
  | readStep (w : Writer α) (r r' : Reader) (plen : Nat) (got : List α)
      (n : Int) (e : Option GoErr) :
      Reach α w r → read w r plen = .ok r' got n e → Reach α w r'
  | readOneStep (w : Writer α) (r r' : Reader) (x : Option α)
      (e : Option GoErr) :
      Reach α w r → readOne w r = .ok r' x e → Reach α w r'
  | resetStep (w : Writer α) (r : Reader) :
      Reach α w r → Reach α w (reset w r)
  | setAutoSkipStep (w : Writer α) (r : Reader) (b : Bool) :
      Reach α w r → Reach α w (setAutoSkip r b)
  | closeReaderStep (w : Writer α) (r : Reader) :
      Reach α w r → Reach α w (closeReader r)
  | closeWriterStep (w : Writer α) (r : Reader) :
      Reach α w r → Reach α (closeWriter w) r

/-- The cursor invariant `readLap ≤ lap` holds in every reachable state. -/
lemma reach_cycle_le {α : Type} (w : Writer α) (r : Reader)
    (h : Reach α w r) : r.cycle ≤ w.cycle := by
  induction h with
  | create w r hmk =>
    rw [mkReader] at hmk
    split_ifs at hmk <;> cases hmk <;> simp only [] <;> omega
  | createBlocking w r hmk =>
    rw [mkBlockingReader] at hmk
    split_ifs at hmk <;> cases hmk <;> simp only [] <;> omega
  | createCurrent w r hmk =>
    rw [mkBlockingCurrentReader] at hmk
    split_ifs at hmk <;> cases hmk <;> simp only [] <;> omega
  | writeStep w w' r v n e hre hw ih =>
    have := write_cycle_mono hw
    omega
  | readStep w r r' plen got n e hre hrd ih =>
    exact (read_preserves w r plen ih r' got n e hrd).1
  | readOneStep w r r' x e hre hrd ih =>
    exact (readOne_preserves w r ih r' x e hrd).1
  | resetStep w r hre ih => simp [reset]
  | setAutoSkipStep w r b hre ih => simpa only [setAutoSkip] using ih
  | closeReaderStep w r hre ih => simpa only [closeReader] using ih
  | closeWriterStep w r hre ih => simpa only [closeWriter] using ih

/-- C8: in every reachable writer/reader configuration the reader is never
ahead of the writer (`readLap ≤ lap`), and consequently neither `Read` nor
`ReadOne` can ever return the defensive "reader is in the future" internal
fault from a reachable state. -/
theorem claim8_future_branch_unreachable {α : Type} (w : Writer α)
    (r : Reader) (h : Reach α w r) :
    r.cycle ≤ w.cycle ∧
    (∀ (plen : Nat) (r' : Reader) (got : List α) (n : Int) (e : Option GoErr),
      read w r plen = .ok r' got n e → e ≠ some .readerInFuture) ∧
    (∀ (r' : Reader) (x : Option α) (e : Option GoErr),
      readOne w r = .ok r' x e → e ≠ some .readerInFuture) := by
  have hle := reach_cycle_le w r h
  exact ⟨hle,
    fun plen r' got n e hrd => (read_preserves w r plen hle r' got n e hrd).2,
    fun r' x e hrd => (readOne_preserves w r hle r' x e hrd).2⟩

/-- C8 witness: the invariant applied to the reachable configuration
`(wHello, rFive)` (default reader of `wHello` after one 5-element read),
instantiating the `Read` clause at the concrete successful read. -/
theorem claim8_witness :
    rFive.cycle ≤ wHello.cycle ∧
    ((some GoErr.eof : Option GoErr) ≠ some .readerInFuture) :=
  have hreach : Reach Char wHello rFive :=
    Reach.readStep wHello rZero rFive 5 "hello".toList 5 none
      (Reach.create wHello rZero (by decide)) (by decide)
  ⟨(claim8_future_branch_unreachable wHello rFive hreach).1,
   (claim8_future_branch_unreachable wHello rFive hreach).2.2 rFive
     none (some GoErr.eof) (by decide)⟩

end Ringslice
